import Mathlib

/-!
# Move validation and board mutation of the 5x5 two-player board game server

Shallow embedding of `src/server.js`.  The module-level variable `gameState` becomes an
explicit `GameState` value threaded through every function; each function returns a `Run`
record holding the state it leaves behind, how it completed (normal return, `TypeError`, or a
loop that never ends) and the messages it sent.  Coordinates are integers, piece ids, piece
types and commands are strings, players are the two keys `'A'` and `'B'`.
-/

namespace Chess

/-! ## Data model -/

/-- The two keys of `gameState.players`. -/
inductive Player where
  | A
  | B
  deriving DecidableEq, Repr

/-- The expression `player === 'A' ? 'B' : 'A'` (lines 162, 212, 247). -/
def opponentOf (player : Player) : Player :=
  if player = Player.A then Player.B else Player.A

/-- A `{ x, y }` object. -/
structure Position where
  x : Int
  y : Int
  deriving DecidableEq, Repr

/-- A piece record `{ id, type, position }` as supplied by the `initialize` message. -/
structure Piece where
  id : String
  type : String
  position : Position
  deriving DecidableEq, Repr

/-- The value stored in a board cell: `null` or a piece id. -/
inductive Cell where
  | null
  | id (s : String)
  deriving DecidableEq, Repr

/-- One row of the board, as the finite map from integer keys to the values stored under
them.  A key that is absent reads as `undefined`. -/
abbrev Row := List (Int × Cell)

/-- The board: the array of rows, indexed by `y`. -/
abbrev Board := List Row

/-- The assignment `row[x] = v`: overwrite the key when present, add it otherwise. -/
def Row.write : Row → Int → Cell → Row
  | [], x, v => [(x, v)]
  | (k, c) :: r, x, v => if k = x then (k, v) :: r else (k, c) :: Row.write r x v

/-- The read `row[x]`; `none` stands for `undefined`. -/
def Row.read : Row → Int → Option Cell
  | [], _ => none
  | (k, c) :: r, x => if k = x then some c else Row.read r x

/-- The read `board[y]`; `none` stands for `undefined`. -/
def Board.row (b : Board) (y : Int) : Option Row :=
  if y < 0 then none else b.get? y.toNat

/-- The assignment `board[y][x] = v`.  It throws a `TypeError` (`none`) when `board[y]` is
`undefined`. -/
def Board.write (b : Board) (x y : Int) (v : Cell) : Option Board :=
  match Board.row b y with
  | none => none
  | some r => some (b.set y.toNat (Row.write r x v))

/-- The read `board[y][x]`; `none` when the row or the key is absent. -/
def Board.read (b : Board) (x y : Int) : Option Cell :=
  match Board.row b y with
  | none => none
  | some r => Row.read r x

/-- The value `Array(5).fill(null)`. -/
def emptyRow : Row :=
  [(0, Cell.null), (1, Cell.null), (2, Cell.null), (3, Cell.null), (4, Cell.null)]

/-- The value `Array(5).fill(null).map(() => Array(5).fill(null))` (lines 11, 18). -/
def emptyBoard : Board :=
  [emptyRow, emptyRow, emptyRow, emptyRow, emptyRow]

/-- An entry `{ pieces, eliminated }` of `gameState.players`. -/
structure PlayerData where
  pieces : List Piece
  eliminated : List Piece
  deriving DecidableEq, Repr

/-- The object `gameState.players` once it has its two keys. -/
structure Players where
  A : PlayerData
  B : PlayerData
  deriving DecidableEq, Repr

/-- The lookup `gameState.players[player]`. -/
def Players.get (ps : Players) : Player → PlayerData
  | Player.A => ps.A
  | Player.B => ps.B

/-- Replace the `pieces` array of one player. -/
def Players.setPieces (ps : Players) (player : Player) (l : List Piece) : Players :=
  match player with
  | Player.A => { ps with A := { ps.A with pieces := l } }
  | Player.B => { ps with B := { ps.B with pieces := l } }

/-- The variable `gameState`.  `players = none` is the empty object `{}` of line 12 and
`currentPlayer = none` is the `null` of line 13. -/
structure GameState where
  board : Board
  players : Option Players
  currentPlayer : Option Player
  deriving DecidableEq, Repr

/-- The initial value of `gameState` (lines 10 to 14). -/
def initialGameState : GameState :=
  { board := emptyBoard, players := none, currentPlayer := none }

/-! ## Messages and completions -/

/-- Who receives an outbound message: every open client (`clients.forEach`) or only the socket
the command came from (`ws.send`). -/
inductive Recipient where
  | allClients
  | sender
  deriving DecidableEq, Repr

/-- The outbound message bodies. -/
inductive Message where
  | gameState (state : GameState)
  | gameOver (winner : Player)
  | invalidMove
  | outOfTurn
  deriving DecidableEq, Repr

/-- One outbound message with its recipient. -/
structure Event where
  recipient : Recipient
  message : Message
  deriving DecidableEq, Repr

/-- How a call ends: it returns a value, throws a `TypeError`, or loops for ever. -/
inductive Outcome (α : Type) where
  | returned (v : α)
  | threw
  | diverged
  deriving DecidableEq, Repr

/-- The result of running a function on the shared state. -/
structure Run (α : Type) where
  state : GameState
  outcome : Outcome α
  events : List Event
  deriving DecidableEq, Repr

/-! ## Move resolver (lines 48 to 121) -/

/-- Lines 48 to 83.  The additions and subtractions are those of the integers: they agree
with the source's arithmetic on numbers for coordinates `v` with `|v| ≤ 2^53 - 2` (see
`ExactCoordinate`), where `v ± 1` and `v ± 2` are computed without rounding.  Statements
about the values returned carry that range as a hypothesis. -/
def movePlayerAPiece (piece : Piece) (move : String) : Option Position :=
  let x := piece.position.x
  let y := piece.position.y
  if piece.type = "P" then
    if move = "L" then some ⟨x - 1, y⟩
    else if move = "R" then some ⟨x + 1, y⟩
    else if move = "F" then some ⟨x, y + 1⟩
    else if move = "B" then some ⟨x, y - 1⟩
    else none
  else if piece.type = "H1" then
    if move = "L" then some ⟨x - 2, y⟩
    else if move = "R" then some ⟨x + 2, y⟩
    else if move = "F" then some ⟨x, y + 2⟩
    else if move = "B" then some ⟨x, y - 2⟩
    else none
  else if piece.type = "H2" then
    if move = "FL" then some ⟨x - 2, y + 2⟩
    else if move = "FR" then some ⟨x + 2, y + 2⟩
    else if move = "BL" then some ⟨x - 2, y - 2⟩
    else if move = "BR" then some ⟨x + 2, y - 2⟩
    else none
  else none

/-- Lines 86 to 121.  As for `movePlayerAPiece`, the arithmetic is that of the integers and
agrees with the source for coordinates `v` with `|v| ≤ 2^53 - 2`. -/
def movePlayerBPiece (piece : Piece) (move : String) : Option Position :=
  let x := piece.position.x
  let y := piece.position.y
  if piece.type = "P" then
    if move = "L" then some ⟨x - 1, y⟩
    else if move = "R" then some ⟨x + 1, y⟩
    else if move = "F" then some ⟨x, y - 1⟩
    else if move = "B" then some ⟨x, y + 1⟩
    else none
  else if piece.type = "H1" then
    if move = "L" then some ⟨x - 2, y⟩
    else if move = "R" then some ⟨x + 2, y⟩
    else if move = "F" then some ⟨x, y - 2⟩
    else if move = "B" then some ⟨x, y + 2⟩
    else none
  else if piece.type = "H2" then
    if move = "FL" then some ⟨x - 2, y - 2⟩
    else if move = "FR" then some ⟨x + 2, y - 2⟩
    else if move = "BL" then some ⟨x - 2, y + 2⟩
    else if move = "BR" then some ⟨x + 2, y + 2⟩
    else none
  else none

/-- The expression of line 128:
`player === 'A' ? movePlayerAPiece(piece, move) : movePlayerBPiece(piece, move)`. -/
def resolveMove (player : Player) (piece : Piece) (move : String) : Option Position :=
  if player = Player.A then movePlayerAPiece piece move else movePlayerBPiece piece move

/-- Lines 156 to 158. -/
def isPositionWithinBounds (x y : Int) : Bool :=
  decide (x ≥ 0) && decide (x < 5) && decide (y ≥ 0) && decide (y < 5)

/-! ## Path (lines 192 to 206) -/

/-- The `while` loop of lines 199 to 203, run for at most `fuel` iterations, started with the
cursor at `(cx, cy)`.  It yields the cells pushed from there on, or `none` when the cursor has
not reached `(newX, newY)` after `fuel` iterations. -/
def calculatePathLoop (dx dy newX newY : Int) : Nat → Int → Int → Option (List Position)
  | 0, cx, cy => if cx ≠ newX ∨ cy ≠ newY then none else some []
  | fuel + 1, cx, cy =>
    if cx ≠ newX ∨ cy ≠ newY then
      (calculatePathLoop dx dy newX newY fuel (cx + dx) (cy + dy)).map (fun l => ⟨cx, cy⟩ :: l)
    else some []

/-- Lines 192 to 206.  The cursor moves away from the origin by `(dx, dy)` at every iteration,
so it can meet the destination only within `|newX - x| + |newY - y|` iterations: the loop is
run with that much fuel and `none` stands for a loop that never ends.  The cursor arithmetic
is that of the integers: it agrees with the source when the four arguments satisfy
`ExactCoordinate`, where every cursor value lies between origin and destination and is
computed without rounding; the length limit of arrays (`2^32 - 1` elements) is not part of
the model, so statements that the call returns bound the displacement by `2^32`. -/
def calculatePath (x y newX newY : Int) : Option (List Position) :=
  let dx := Int.sign (newX - x)
  let dy := Int.sign (newY - y)
  calculatePathLoop dx dy newX newY ((newX - x).natAbs + (newY - y).natAbs) (x + dx) (y + dy)

/-! ## Captures and collisions (lines 161 to 189) -/

/-- The inner `for` loop of lines 167 to 185 over the pieces not yet visited of roster
`playerId`.  The first component is what is left of those pieces; the second is `false` when
the loop left the function through a `return false`.  `splice(i, 1)` drops the current piece:
followed by `break` the remaining pieces are kept unvisited, followed by `i--` the scan goes
on with the piece that slid into index `i`. -/
def scanPieces (playerId player opponentPlayer : Player) (piece : Piece)
    (path : List Position) (newX newY : Int) : List Piece → List Piece × Bool
  | [] => ([], true)
  | p :: rest =>
    if p.position.x = newX ∧ p.position.y = newY then
      if playerId = player then (p :: rest, false)
      else (rest, true)
    else if (piece.type = "H1" ∨ piece.type = "H2") ∧
        path.any (fun pos => decide (pos.x = p.position.x ∧ pos.y = p.position.y)) = true then
      if playerId = opponentPlayer then
        scanPieces playerId player opponentPlayer piece path newX newY rest
      else (p :: rest, false)
    else
      (p :: (scanPieces playerId player opponentPlayer piece path newX newY rest).1,
        (scanPieces playerId player opponentPlayer piece path newX newY rest).2)

/-- Lines 161 to 189.  The rosters are visited in the insertion order of
`gameState.players`, `'A'` then `'B'`.  The result is `none` when `calculatePath` does not
return; otherwise it holds the rosters as the call leaves them and the returned boolean. -/
def handleCapturesAndCollisions (ps : Players) (player : Player) (piece : Piece)
    (x y newX newY : Int) : Option (Players × Bool) :=
  let opponentPlayer := opponentOf player
  match calculatePath x y newX newY with
  | none => none
  | some path =>
    let ra := scanPieces Player.A player opponentPlayer piece path newX newY ps.A.pieces
    let ps1 := ps.setPieces Player.A ra.1
    if ra.2 = false then some (ps1, false)
    else
      let rb := scanPieces Player.B player opponentPlayer piece path newX newY ps1.B.pieces
      let ps2 := ps1.setPieces Player.B rb.1
      if rb.2 = false then some (ps2, false) else some (ps2, true)

/-! ## Game over (lines 209 to 227) -/

/-- Lines 220 to 227: the message goes to every open client. -/
def broadcastGameOver (winner : Player) : Event :=
  { recipient := Recipient.allClients, message := Message.gameOver winner }

/-- Lines 209 to 217: the returned boolean and the message sent. -/
def checkGameOver (ps : Players) : Bool × List Event :=
  if ps.A.pieces.length = 0 then (true, [broadcastGameOver (opponentOf Player.A)])
  else if ps.B.pieces.length = 0 then (true, [broadcastGameOver (opponentOf Player.B)])
  else (false, [])

/-! ## processMove (lines 124 to 153) -/

/-- The assignment `piece.position = { x: newX, y: newY }` of line 146, where `piece` is the
object returned by `pieces.find(p => p.id === pieceId)`: the first piece of the roster with
that id. -/
def setPosition (pieceId : String) (pos : Position) : List Piece → List Piece
  | [] => []
  | p :: rest =>
    if p.id = pieceId then { p with position := pos } :: rest
    else p :: setPosition pieceId pos rest

/-- The rosters after line 146: the piece found by `processMove` sits in the roster of
`player`, so the assignment changes that roster in place. -/
def movePiece (ps1 : Players) (player : Player) (pieceId : String) (newX newY : Int) :
    Players :=
  ps1.setPieces player (setPosition pieceId ⟨newX, newY⟩ (ps1.get player).pieces)

/-- Lines 144 to 152, the part of `processMove` that runs once every gate is passed: `ps1`
holds the rosters as `handleCapturesAndCollisions` left them, `(x, y)` is the position of
`piece` and `(newX, newY)` its destination. -/
def commitMove (s : GameState) (ps1 : Players) (player : Player) (pieceId : String)
    (piece : Piece) (x y newX newY : Int) : Run Bool :=
  match Board.write s.board x y Cell.null with
  | none => { state := { s with players := some ps1 }, outcome := Outcome.threw, events := [] }
  | some b1 =>
    match Board.write b1 newX newY (Cell.id piece.id) with
    | none =>
      { state := { s with board := b1, players := some (movePiece ps1 player pieceId newX newY) },
        outcome := Outcome.threw, events := [] }
    | some b2 =>
      if (checkGameOver (movePiece ps1 player pieceId newX newY)).1 = true then
        { state := { s with board := b2,
                            players := some (movePiece ps1 player pieceId newX newY) },
          outcome := Outcome.returned false,
          events := (checkGameOver (movePiece ps1 player pieceId newX newY)).2 }
      else
        { state := { s with board := b2,
                            players := some (movePiece ps1 player pieceId newX newY) },
          outcome := Outcome.returned true,
          events := (checkGameOver (movePiece ps1 player pieceId newX newY)).2 }

/-- Lines 124 to 153.  `gameState.players[player].pieces` throws when `players` is `{}`. -/
def processMove (s : GameState) (player : Player) (pieceId move : String) : Run Bool :=
  match s.players with
  | none => { state := s, outcome := Outcome.threw, events := [] }
  | some ps =>
    match (ps.get player).pieces.find? (fun p => decide (p.id = pieceId)) with
    | none => { state := s, outcome := Outcome.returned false, events := [] }
    | some piece =>
      match resolveMove player piece move with
      | none => { state := s, outcome := Outcome.returned false, events := [] }
      | some newPosition =>
        if isPositionWithinBounds newPosition.x newPosition.y = false then
          { state := s, outcome := Outcome.returned false, events := [] }
        else
          match handleCapturesAndCollisions ps player piece piece.position.x piece.position.y
              newPosition.x newPosition.y with
          | none => { state := s, outcome := Outcome.diverged, events := [] }
          | some (ps1, false) =>
            { state := { s with players := some ps1 }, outcome := Outcome.returned false,
              events := [] }
          | some (ps1, true) =>
            commitMove s ps1 player pieceId piece piece.position.x piece.position.y
              newPosition.x newPosition.y

/-! ## Initialisation (lines 16 to 36) -/

/-- The `forEach` of lines 31 to 34 over one roster.  `Except.error` carries the board as it
is when `board[y][x] = piece.id` throws. -/
def placeRoster : Board → List Piece → Except Board Board
  | b, [] => Except.ok b
  | b, p :: rest =>
    match Board.write b p.position.x p.position.y (Cell.id p.id) with
    | none => Except.error b
    | some b1 => placeRoster b1 rest

/-- Lines 29 to 36: roster `'A'` first, then roster `'B'`. -/
def placePiecesOnBoard (s : GameState) : Run Unit :=
  match s.players with
  | none => { state := s, outcome := Outcome.returned (), events := [] }
  | some ps =>
    match placeRoster s.board ps.A.pieces with
    | Except.error b => { state := { s with board := b }, outcome := Outcome.threw, events := [] }
    | Except.ok b1 =>
      match placeRoster b1 ps.B.pieces with
      | Except.error b =>
        { state := { s with board := b }, outcome := Outcome.threw, events := [] }
      | Except.ok b2 =>
        { state := { s with board := b2 }, outcome := Outcome.returned (), events := [] }

/-- Lines 16 to 27.  The previous value of `gameState` is discarded. -/
def initializeGame (playerAPieces playerBPieces : List Piece) : Run Unit :=
  placePiecesOnBoard
    { board := emptyBoard,
      players := some { A := { pieces := playerAPieces, eliminated := [] },
                        B := { pieces := playerBPieces, eliminated := [] } },
      currentPlayer := some Player.A }

/-! ## Message handler (lines 235 to 256) -/

/-- Lines 38 to 45: the snapshot goes to every open client. -/
def broadcastGameState (s : GameState) : Event :=
  { recipient := Recipient.allClients, message := Message.gameState s }

/-- The `move` branch of the message handler, lines 242 to 254, with the function called at
line 245 as a parameter `callee`. -/
def handleMoveWith (callee : GameState → Player → String → String → Run Bool)
    (s : GameState) (player : Player) (pieceId move : String) : Run Unit :=
  if some player = s.currentPlayer then
    match (callee s player pieceId move).outcome with
    | Outcome.returned true =>
      { state :=
          { (callee s player pieceId move).state with
            currentPlayer :=
              if (callee s player pieceId move).state.currentPlayer = some Player.A
              then some Player.B else some Player.A },
        outcome := Outcome.returned (),
        events := (callee s player pieceId move).events ++
          [broadcastGameState
            { (callee s player pieceId move).state with
              currentPlayer :=
                if (callee s player pieceId move).state.currentPlayer = some Player.A
                then some Player.B else some Player.A }] }
    | Outcome.returned false =>
      { state := (callee s player pieceId move).state, outcome := Outcome.returned (),
        events := (callee s player pieceId move).events ++
          [⟨Recipient.sender, Message.invalidMove⟩] }
    | Outcome.threw =>
      { state := (callee s player pieceId move).state, outcome := Outcome.threw,
        events := (callee s player pieceId move).events }
    | Outcome.diverged =>
      { state := (callee s player pieceId move).state, outcome := Outcome.diverged,
        events := (callee s player pieceId move).events }
  else
    { state := s, outcome := Outcome.returned (),
      events := [⟨Recipient.sender, Message.outOfTurn⟩] }

/-- The `move` branch of the message handler, lines 242 to 254: line 245 calls
`processMove`. -/
def handleMove (s : GameState) (player : Player) (pieceId move : String) : Run Unit :=
  handleMoveWith processMove s player pieceId move

/-- The `initialize` branch of the message handler, lines 239 to 241. -/
def handleInitialize (playerA playerB : List Piece) : Run Unit :=
  let r := initializeGame playerA playerB
  match r.outcome with
  | Outcome.returned _ =>
    { state := r.state, outcome := Outcome.returned (), events := [broadcastGameState r.state] }
  | Outcome.threw => r
  | Outcome.diverged => r

/-- The data of a `move` message. -/
structure MoveCommand where
  player : Player
  pieceId : String
  move : String
  deriving DecidableEq, Repr

/-- A sequence of `move` messages handled one after the other, from state `s`: the state
after the last message handled, how the last handler ended and all messages sent.  A handler
that throws or never returns ends the sequence. -/
def runMoves : GameState → List MoveCommand → Run Unit
  | s, [] => { state := s, outcome := Outcome.returned (), events := [] }
  | s, c :: cs =>
    match (handleMove s c.player c.pieceId c.move).outcome with
    | Outcome.returned _ =>
      { state := (runMoves (handleMove s c.player c.pieceId c.move).state cs).state,
        outcome := (runMoves (handleMove s c.player c.pieceId c.move).state cs).outcome,
        events := (handleMove s c.player c.pieceId c.move).events ++
          (runMoves (handleMove s c.player c.pieceId c.move).state cs).events }
    | Outcome.threw => handleMove s c.player c.pieceId c.move
    | Outcome.diverged => handleMove s c.player c.pieceId c.move

/-! ## Vocabulary of the properties -/

/-- A coordinate on which the resolvers and `calculatePath` compute without rounding: the
source's numbers are IEEE doubles, which hold every integer up to `2^53 = 9007199254740992`
in absolute value, so for `|v| ≤ 2^53 - 2` the values `v ± 1` and `v ± 2` are exact. -/
abbrev ExactCoordinate (v : Int) : Prop :=
  -9007199254740990 ≤ v ∧ v ≤ 9007199254740990

/-- A position whose two coordinates are in the exact range. -/
abbrev ExactPosition (p : Position) : Prop :=
  ExactCoordinate p.x ∧ ExactCoordinate p.y

/-- The positions of the pieces of a roster, in roster order. -/
def positionsOf (l : List Piece) : List Position := l.map (fun p => p.position)

/-- A cell shifted by `(x, y)`. -/
def shiftBy (x y : Int) (p : Position) : Position := ⟨x + p.x, y + p.y⟩

/-- The displacements written in the two resolvers. -/
def resolverOffsets : List (Int × Int) :=
  [(-1, 0), (1, 0), (0, 1), (0, -1), (-2, 0), (2, 0), (0, 2), (0, -2),
   (-2, 2), (2, 2), (-2, -2), (2, -2)]

/-- Every piece of both rosters stands inside the grid. -/
def InBounds (ps : Players) : Prop :=
  ∀ p ∈ ps.A.pieces ++ ps.B.pieces, isPositionWithinBounds p.position.x p.position.y = true

/-- No two pieces in the union of the two rosters stand on the same cell. -/
def DistinctPositions (ps : Players) : Prop :=
  (positionsOf (ps.A.pieces ++ ps.B.pieces)).Nodup

/-- A state as `initializeGame` and the moves after it keep it: five rows, both rosters
present with their pieces inside the grid on pairwise distinct cells, and a player to move. -/
def WellFormed (s : GameState) : Prop :=
  s.board.length = 5 ∧ s.currentPlayer ≠ none ∧
    ∃ ps, s.players = some ps ∧ InBounds ps ∧ DistinctPositions ps

/-- The gates of `processMove`, lines 125 to 142, evaluated on rosters `ps`: the piece is
found, the resolver yields a position, the position is within bounds and
`handleCapturesAndCollisions` returns `true`. -/
def passesGates (ps : Players) (player : Player) (pieceId move : String) : Bool :=
  match (ps.get player).pieces.find? (fun p => decide (p.id = pieceId)) with
  | none => false
  | some piece =>
    match resolveMove player piece move with
    | none => false
    | some newPosition =>
      if isPositionWithinBounds newPosition.x newPosition.y = false then false
      else
        match handleCapturesAndCollisions ps player piece piece.position.x piece.position.y
            newPosition.x newPosition.y with
        | none => false
        | some (_, false) => false
        | some (_, true) => true

/-! ## Concrete games -/

/-- After `initialize` with A = [a1 pawn (0,3), a2 pawn (4,0)] and B = [b1 H1 (0,4),
b2 pawn (0,2)], and the move of a2 forward by A: B is to move, b1 has the pawn a1 on the cell
it would cross going forward and its own pawn b2 on the cell it would land on. -/
def friendlyFireGame : GameState :=
  (runMoves
    (initializeGame
      [⟨"a1", "P", ⟨0, 3⟩⟩, ⟨"a2", "P", ⟨4, 0⟩⟩]
      [⟨"b1", "H1", ⟨0, 4⟩⟩, ⟨"b2", "P", ⟨0, 2⟩⟩]).state
    [⟨Player.A, "a2", "F"⟩]).state

/-- After `initialize` with A = [a1 pawn (0,2), a2 pawn (4,0)] and B = [b1 H1 (0,4),
b2 pawn (0,3)], and the move of a2 forward by A: B is to move, b1 has its own pawn b2 on the
cell it would cross going forward and the pawn a1 on the cell it would land on. -/
def blockedHeroGame : GameState :=
  (runMoves
    (initializeGame
      [⟨"a1", "P", ⟨0, 2⟩⟩, ⟨"a2", "P", ⟨4, 0⟩⟩]
      [⟨"b1", "H1", ⟨0, 4⟩⟩, ⟨"b2", "P", ⟨0, 3⟩⟩]).state
    [⟨Player.A, "a2", "F"⟩]).state

/-- After `initialize` with A = [a1 H1 (0,0)] and B = [b1 pawn (0,2), b2 pawn (0,1)]: the
pawn on the destination of a1 going forward is listed before the pawn on its path. -/
def pathCaptureGame : GameState :=
  (initializeGame
    [⟨"a1", "H1", ⟨0, 0⟩⟩]
    [⟨"b1", "P", ⟨0, 2⟩⟩, ⟨"b2", "P", ⟨0, 1⟩⟩]).state

/-- After `initialize` with A = [a1 H1 (0,0)] and B = [b1 pawn (0,1), b2 pawn (4,4)]. -/
def staleCellGame : GameState :=
  (initializeGame
    [⟨"a1", "H1", ⟨0, 0⟩⟩]
    [⟨"b1", "P", ⟨0, 1⟩⟩, ⟨"b2", "P", ⟨4, 4⟩⟩]).state

/-- After `initialize` with A = [a1 pawn (0,0)] and B = [b1 pawn (0,1)]. -/
def lastPieceGame : GameState :=
  (initializeGame [⟨"a1", "P", ⟨0, 0⟩⟩] [⟨"b1", "P", ⟨0, 1⟩⟩]).state

/-- The game `lastPieceGame` after A has taken B's only piece. -/
def finishedGame : GameState :=
  (runMoves lastPieceGame [⟨Player.A, "a1", "F"⟩]).state

/-- A displacement `(dx, dy)` that changes exactly one axis, by magnitude `k`. -/
def oneAxisBy (k : Nat) (dx dy : Int) : Prop :=
  (dx.natAbs = k ∧ dy = 0) ∨ (dx = 0 ∧ dy.natAbs = k)

/-- The commands listed for Pawn and Hero1 in the resolvers. -/
def straightCommands : List String := ["L", "R", "F", "B"]

/-- The commands listed for Hero2 in the resolvers. -/
def diagonalCommands : List String := ["FL", "FR", "BL", "BR"]

/-- A state with five rows and both rosters present, every piece inside the grid. -/
def InBoundsState (s : GameState) : Prop :=
  s.board.length = 5 ∧ ∃ ps, s.players = some ps ∧ InBounds ps

/-- After `initialize` with A = [a1 H1 (0,0), a2 pawn (0,2)] and B = [b1 pawn (0,1)]: a1
going forward would cross b1 and land on A's own pawn a2. -/
def ownPieceAheadGame : GameState :=
  (initializeGame
    [⟨"a1", "H1", ⟨0, 0⟩⟩, ⟨"a2", "P", ⟨0, 2⟩⟩]
    [⟨"b1", "P", ⟨0, 1⟩⟩]).state

/-! ## Rosters, scans and paths: auxiliary facts -/

theorem opponentOf_ne (player : Player) : opponentOf player ≠ player := by
  cases player <;> decide

theorem eq_opponentOf_of_ne {playerId player : Player} (h : playerId ≠ player) :
    playerId = opponentOf player := by
  cases playerId <;> cases player <;> first | rfl | exact absurd rfl h

theorem setPieces_get_self (ps : Players) (player : Player) :
    ps.setPieces player (ps.get player).pieces = ps := by
  cases player <;> rfl

theorem ne_dest_of_not_at {p : Piece} {newX newY : Int}
    (h : ¬ (p.position.x = newX ∧ p.position.y = newY)) :
    (⟨newX, newY⟩ : Position) ≠ p.position := by
  intro h5
  apply h
  rw [← h5]
  exact ⟨rfl, rfl⟩

theorem eq_dest_of_at {p : Piece} {newX newY : Int}
    (h : p.position.x = newX ∧ p.position.y = newY) :
    (⟨newX, newY⟩ : Position) = p.position := by
  rw [← h.1, ← h.2]

theorem scanPieces_mover (player : Player) (piece : Piece) (path : List Position)
    (newX newY : Int) (l : List Piece) :
    (scanPieces player player (opponentOf player) piece path newX newY l).1 = l := by
  induction l with
  | nil => rfl
  | cons p rest ih =>
    have hne : ¬ player = opponentOf player := fun h => opponentOf_ne player h.symm
    rw [scanPieces]
    by_cases h1 : p.position.x = newX ∧ p.position.y = newY
    · rw [if_pos h1, if_pos rfl]
    · rw [if_neg h1, if_neg hne]
      split_ifs
      · rfl
      · rw [ih]

theorem scanPieces_sublist (playerId player opp : Player) (piece : Piece)
    (path : List Position) (newX newY : Int) (l : List Piece) :
    List.Sublist (scanPieces playerId player opp piece path newX newY l).1 l := by
  induction l with
  | nil => exact List.Sublist.refl _
  | cons p rest ih =>
    rw [scanPieces]
    split_ifs
    · exact List.Sublist.refl _
    · exact List.sublist_cons_self _ _
    · exact ih.trans (List.sublist_cons_self _ _)
    · exact List.Sublist.refl _
    · exact ih.cons₂ p

theorem scanPieces_mover_clear (player : Player) (piece : Piece) (path : List Position)
    (newX newY : Int) (l : List Piece)
    (h : (scanPieces player player (opponentOf player) piece path newX newY l).2 = true) :
    (⟨newX, newY⟩ : Position) ∉ positionsOf l := by
  induction l with
  | nil => simp [positionsOf]
  | cons p rest ih =>
    have hne : ¬ player = opponentOf player := fun h => opponentOf_ne player h.symm
    rw [scanPieces] at h
    by_cases h1 : p.position.x = newX ∧ p.position.y = newY
    · rw [if_pos h1, if_pos rfl] at h
      exact absurd h (by simp)
    · rw [if_neg h1, if_neg hne] at h
      simp only [positionsOf, List.map_cons, List.mem_cons, not_or]
      refine ⟨ne_dest_of_not_at h1, ?_⟩
      split_ifs at h
      · exact ih h

theorem scanPieces_opponent_ok (playerId player : Player) (piece : Piece)
    (path : List Position) (newX newY : Int) (l : List Piece) (hp : playerId ≠ player) :
    (scanPieces playerId player (opponentOf player) piece path newX newY l).2 = true := by
  have ho : playerId = opponentOf player := eq_opponentOf_of_ne hp
  induction l with
  | nil => rfl
  | cons p rest ih =>
    rw [scanPieces, if_neg hp, if_pos ho]
    split_ifs
    · rfl
    · exact ih
    · exact ih

theorem scanPieces_opponent_clear (playerId player : Player) (piece : Piece)
    (path : List Position) (newX newY : Int) (l : List Piece) (hp : playerId ≠ player)
    (hnd : (positionsOf l).Nodup) :
    (⟨newX, newY⟩ : Position) ∉
      positionsOf (scanPieces playerId player (opponentOf player) piece path newX newY l).1 := by
  have ho : playerId = opponentOf player := eq_opponentOf_of_ne hp
  induction l with
  | nil => simp [positionsOf, scanPieces]
  | cons p rest ih =>
    have hnd2 : p.position ∉ positionsOf rest ∧ (positionsOf rest).Nodup := by
      simpa [positionsOf] using hnd
    rw [scanPieces, if_neg hp, if_pos ho]
    by_cases h1 : p.position.x = newX ∧ p.position.y = newY
    · rw [if_pos h1, eq_dest_of_at h1]
      exact hnd2.1
    · rw [if_neg h1]
      split_ifs
      · exact ih hnd2.2
      · simp only [positionsOf, List.map_cons, List.mem_cons, not_or]
        exact ⟨ne_dest_of_not_at h1, ih hnd2.2⟩

theorem positionsOf_append (l1 l2 : List Piece) :
    positionsOf (l1 ++ l2) = positionsOf l1 ++ positionsOf l2 := by
  simp [positionsOf]

theorem positionsOf_sublist {l1 l2 : List Piece} (h : List.Sublist l1 l2) :
    List.Sublist (positionsOf l1) (positionsOf l2) :=
  h.map _

theorem mem_positionsOf_setPosition (pieceId : String) (pos q : Position) (l : List Piece)
    (h : q ∈ positionsOf (setPosition pieceId pos l)) : q = pos ∨ q ∈ positionsOf l := by
  induction l with
  | nil => simp [setPosition, positionsOf] at h
  | cons p rest ih =>
    rw [setPosition] at h
    by_cases hid : p.id = pieceId
    · rw [if_pos hid] at h
      simp only [positionsOf, List.map_cons, List.mem_cons] at h ⊢
      rcases h with h | h
      · exact Or.inl h
      · exact Or.inr (Or.inr h)
    · rw [if_neg hid] at h
      simp only [positionsOf, List.map_cons, List.mem_cons] at h ⊢
      rcases h with h | h
      · exact Or.inr (Or.inl h)
      · rcases ih h with h2 | h2
        · exact Or.inl h2
        · exact Or.inr (Or.inr h2)

theorem setPosition_nodup (pieceId : String) (pos : Position) (m o : List Piece)
    (hnd : (positionsOf m ++ positionsOf o).Nodup)
    (hm : pos ∉ positionsOf m) (ho : pos ∉ positionsOf o) :
    (positionsOf (setPosition pieceId pos m) ++ positionsOf o).Nodup := by
  induction m with
  | nil => simpa [setPosition] using hnd
  | cons p rest ih =>
    have h1 : p.position ∉ positionsOf rest ++ positionsOf o ∧
        (positionsOf rest ++ positionsOf o).Nodup := by
      simpa [positionsOf] using hnd
    have h2 : pos ≠ p.position ∧ pos ∉ positionsOf rest := by
      simpa [positionsOf] using hm
    rw [setPosition]
    by_cases hid : p.id = pieceId
    · rw [if_pos hid]
      show (pos :: (positionsOf rest ++ positionsOf o)).Nodup
      refine List.nodup_cons.mpr ⟨?_, h1.2⟩
      simp only [List.mem_append, not_or]
      exact ⟨h2.2, ho⟩
    · rw [if_neg hid]
      show (p.position :: (positionsOf (setPosition pieceId pos rest) ++ positionsOf o)).Nodup
      refine List.nodup_cons.mpr ⟨?_, ih h1.2 h2.2⟩
      intro hmem
      rcases List.mem_append.mp hmem with hmem | hmem
      · rcases mem_positionsOf_setPosition _ _ _ _ hmem with h3 | h3
        · exact h2.1 h3.symm
        · exact h1.1 (List.mem_append.mpr (Or.inl h3))
      · exact h1.1 (List.mem_append.mpr (Or.inr hmem))

theorem handleCaptures_A (ps : Players) (piece : Piece) (x y newX newY : Int) :
    handleCapturesAndCollisions ps Player.A piece x y newX newY =
      match calculatePath x y newX newY with
      | none => none
      | some path =>
        if (scanPieces Player.A Player.A Player.B piece path newX newY ps.A.pieces).2 = false
        then some (ps, false)
        else some (ps.setPieces Player.B
          (scanPieces Player.B Player.A Player.B piece path newX newY ps.B.pieces).1, true) := by
  unfold handleCapturesAndCollisions
  cases calculatePath x y newX newY with
  | none => rfl
  | some path =>
    have h1 := scanPieces_mover Player.A piece path newX newY ps.A.pieces
    have h2 := scanPieces_opponent_ok Player.B Player.A piece path newX newY ps.B.pieces
      (by decide)
    have h3 : opponentOf Player.A = Player.B := rfl
    simp only [h3] at h1 h2 ⊢
    rw [h1]
    have h4 : ps.setPieces Player.A ps.A.pieces = ps := setPieces_get_self ps Player.A
    rw [h4, h2]
    simp

theorem handleCaptures_B (ps : Players) (piece : Piece) (x y newX newY : Int) :
    handleCapturesAndCollisions ps Player.B piece x y newX newY =
      match calculatePath x y newX newY with
      | none => none
      | some path =>
        if (scanPieces Player.B Player.B Player.A piece path newX newY ps.B.pieces).2 = false
        then some (ps.setPieces Player.A
          (scanPieces Player.A Player.B Player.A piece path newX newY ps.A.pieces).1, false)
        else some (ps.setPieces Player.A
          (scanPieces Player.A Player.B Player.A piece path newX newY ps.A.pieces).1, true) := by
  unfold handleCapturesAndCollisions
  cases calculatePath x y newX newY with
  | none => rfl
  | some path =>
    have h1 := scanPieces_mover Player.B piece path newX newY ps.B.pieces
    have h2 := scanPieces_opponent_ok Player.A Player.B piece path newX newY ps.A.pieces
      (by decide)
    have h3 : opponentOf Player.B = Player.A := rfl
    simp only [h3] at h1 h2 ⊢
    have h5 : ∀ l, (ps.setPieces Player.A l).B = ps.B := fun _ => rfl
    rw [h2, h5, h1]
    have h4 : ∀ q : Players, q.B = ps.B → q.setPieces Player.B ps.B.pieces = q := by
      intro q hq
      rw [← hq]
      exact setPieces_get_self q Player.B
    rw [h4 _ (h5 _)]
    simp

theorem calculatePathLoop_shift (dx dy a b x y : Int) (fuel : Nat) (cx cy : Int) :
    calculatePathLoop dx dy (x + a) (y + b) fuel (x + cx) (y + cy) =
      (calculatePathLoop dx dy a b fuel cx cy).map (List.map (shiftBy x y)) := by
  induction fuel generalizing cx cy with
  | zero =>
    simp only [calculatePathLoop, ne_eq, add_right_inj]
    split_ifs <;> rfl
  | succ n ih =>
    simp only [calculatePathLoop, ne_eq, add_right_inj]
    split_ifs
    · rw [add_assoc, add_assoc, ih]
      cases calculatePathLoop dx dy a b n (cx + dx) (cy + dy) <;> rfl
    · rfl

theorem calculatePath_shift (x y a b : Int) :
    calculatePath x y (x + a) (y + b) =
      (calculatePath 0 0 a b).map (List.map (shiftBy x y)) := by
  unfold calculatePath
  simp only [add_sub_cancel_left, sub_zero, zero_add]
  exact calculatePathLoop_shift _ _ a b x y _ _ _

theorem movePlayerAPiece_offset (piece : Piece) (move : String) (np : Position)
    (h : movePlayerAPiece piece move = some np) :
    ∃ d ∈ resolverOffsets, np = ⟨piece.position.x + d.1, piece.position.y + d.2⟩ := by
  unfold movePlayerAPiece at h
  split_ifs at h
  all_goals first
    | exact Option.noConfusion h
    | (cases h; simp [resolverOffsets, sub_eq_add_neg])

theorem movePlayerBPiece_offset (piece : Piece) (move : String) (np : Position)
    (h : movePlayerBPiece piece move = some np) :
    ∃ d ∈ resolverOffsets, np = ⟨piece.position.x + d.1, piece.position.y + d.2⟩ := by
  unfold movePlayerBPiece at h
  split_ifs at h
  all_goals first
    | exact Option.noConfusion h
    | (cases h; simp [resolverOffsets, sub_eq_add_neg])

theorem resolveMove_offset (player : Player) (piece : Piece) (move : String) (np : Position)
    (h : resolveMove player piece move = some np) :
    ∃ d ∈ resolverOffsets, np = ⟨piece.position.x + d.1, piece.position.y + d.2⟩ := by
  cases player
  · exact movePlayerAPiece_offset piece move np h
  · exact movePlayerBPiece_offset piece move np h

theorem calculatePath_offset_isSome :
    ∀ d ∈ resolverOffsets, (calculatePath 0 0 d.1 d.2).isSome = true := by
  decide

theorem calculatePath_resolveMove (player : Player) (piece : Piece) (move : String)
    (np : Position) (h : resolveMove player piece move = some np) :
    ∃ path, calculatePath piece.position.x piece.position.y np.x np.y = some path := by
  obtain ⟨d, hd, rfl⟩ := resolveMove_offset player piece move np h
  have h1 := calculatePath_offset_isSome d hd
  rw [calculatePath_shift]
  cases h2 : calculatePath 0 0 d.1 d.2 with
  | none => rw [h2] at h1; exact absurd h1 (by simp)
  | some l => exact ⟨_, rfl⟩

/-! ## processMove: gates and frame -/
theorem commitMove_currentPlayer (s : GameState) (ps1 : Players) (player : Player)
    (pieceId : String) (piece : Piece) (x y newX newY : Int) :
    (commitMove s ps1 player pieceId piece x y newX newY).state.currentPlayer =
      s.currentPlayer := by
  unfold commitMove
  repeat' split
  all_goals rfl

theorem processMove_currentPlayer (s : GameState) (player : Player) (pieceId move : String) :
    (processMove s player pieceId move).state.currentPlayer = s.currentPlayer := by
  unfold processMove
  repeat' split
  all_goals first
    | rfl
    | exact commitMove_currentPlayer _ _ _ _ _ _ _ _ _

theorem passesGates_inv (ps : Players) (player : Player) (pieceId move : String)
    (hg : passesGates ps player pieceId move = true) :
    ∃ piece np ps1,
      (ps.get player).pieces.find? (fun p => decide (p.id = pieceId)) = some piece ∧
      resolveMove player piece move = some np ∧
      isPositionWithinBounds np.x np.y = true ∧
      handleCapturesAndCollisions ps player piece piece.position.x piece.position.y
        np.x np.y = some (ps1, true) := by
  unfold passesGates at hg
  split at hg
  · exact absurd hg (by simp)
  · rename_i piece hf
    split at hg
    · exact absurd hg (by simp)
    · rename_i np hr
      split at hg
      · exact absurd hg (by simp)
      · rename_i hb
        split at hg
        · exact absurd hg (by simp)
        · exact absurd hg (by simp)
        · rename_i ps1 hc
          exact ⟨piece, np, ps1, hf, hr, by simpa using hb, hc⟩

theorem processMove_of_gates (s : GameState) (ps : Players) (player : Player)
    (pieceId move : String) (piece : Piece) (np : Position) (ps1 : Players)
    (hps : s.players = some ps)
    (hf : (ps.get player).pieces.find? (fun p => decide (p.id = pieceId)) = some piece)
    (hr : resolveMove player piece move = some np)
    (hb : isPositionWithinBounds np.x np.y = true)
    (hc : handleCapturesAndCollisions ps player piece piece.position.x piece.position.y
        np.x np.y = some (ps1, true)) :
    processMove s player pieceId move =
      commitMove s ps1 player pieceId piece piece.position.x piece.position.y np.x np.y := by
  unfold processMove
  simp only [hps, hf, hr, hb, hc]
  simp

theorem handleCaptures_isSome (ps : Players) (player : Player) (piece : Piece) (move : String)
    (np : Position) (hr : resolveMove player piece move = some np) :
    ∃ r, handleCapturesAndCollisions ps player piece piece.position.x piece.position.y
      np.x np.y = some r := by
  obtain ⟨path, hpath⟩ := calculatePath_resolveMove player piece move np hr
  unfold handleCapturesAndCollisions
  rw [hpath]
  dsimp only
  split_ifs <;> exact ⟨_, rfl⟩

theorem processMove_of_not_gates (s : GameState) (ps : Players) (player : Player)
    (pieceId move : String) (hps : s.players = some ps)
    (hg : passesGates ps player pieceId move = false) :
    processMove s player pieceId move =
        { state := s, outcome := Outcome.returned false, events := [] } ∨
      ∃ piece np ps1,
        (ps.get player).pieces.find? (fun p => decide (p.id = pieceId)) = some piece ∧
        resolveMove player piece move = some np ∧
        handleCapturesAndCollisions ps player piece piece.position.x piece.position.y
          np.x np.y = some (ps1, false) ∧
        processMove s player pieceId move =
          { state := { s with players := some ps1 }, outcome := Outcome.returned false,
            events := [] } := by
  cases hf : (ps.get player).pieces.find? (fun p => decide (p.id = pieceId)) with
  | none =>
    left
    simp only [processMove, hps, hf]
  | some piece =>
    cases hr : resolveMove player piece move with
    | none =>
      left
      simp only [processMove, hps, hf, hr]
    | some np =>
      by_cases hb : isPositionWithinBounds np.x np.y = false
      · left
        simp only [processMove, hps, hf, hr, hb, if_true]
      · obtain ⟨r, hsome⟩ := handleCaptures_isSome ps player piece move np hr
        rcases r with ⟨ps1, b⟩
        cases b with
        | false =>
          right
          refine ⟨piece, np, ps1, rfl, hr, hsome, ?_⟩
          simp only [processMove, hps, hf, hr, hb, hsome, if_false]
          rfl
        | true =>
          exfalso
          simp only [passesGates, hf, hr, hb, hsome, if_false] at hg
          exact absurd hg (by simp)

theorem handleCaptures_false_of_empty (ps : Players) (player : Player) (piece : Piece)
    (x y newX newY : Int) (ps1 : Players)
    (hfin : ps.A.pieces = [] ∨ ps.B.pieces = [])
    (hne : (ps.get player).pieces ≠ [])
    (hc : handleCapturesAndCollisions ps player piece x y newX newY = some (ps1, false)) :
    ps1 = ps := by
  cases player with
  | A =>
    rw [handleCaptures_A] at hc
    split at hc
    · exact absurd hc (by simp)
    · split_ifs at hc
      · simp only [Option.some.injEq, Prod.mk.injEq, and_true] at hc
        exact hc.symm
      · simp at hc
  | B =>
    have hA : ps.A.pieces = [] := by
      rcases hfin with h | h
      · exact h
      · exact absurd h hne
    rw [handleCaptures_B] at hc
    split at hc
    · exact absurd hc (by simp)
    · split_ifs at hc
      · simp only [Option.some.injEq, Prod.mk.injEq, and_true] at hc
        rw [← hc, hA]
        simp only [scanPieces]
        rw [← hA]
        exact setPieces_get_self ps Player.A
      · simp at hc

theorem get_setPieces_self (ps : Players) (player : Player) (l : List Piece) :
    ((ps.setPieces player l).get player).pieces = l := by
  cases player <;> rfl

theorem get_setPieces_opponent (ps : Players) (player : Player) (l : List Piece) :
    (ps.setPieces (opponentOf player) l).get player = ps.get player := by
  cases player <;> rfl

theorem get_setPieces_other (ps : Players) (player : Player) (l : List Piece) :
    (ps.setPieces player l).get (opponentOf player) = ps.get (opponentOf player) := by
  cases player <;> rfl

/-- What `handleCapturesAndCollisions` leaves behind: the roster of the mover is untouched,
the roster of the opponent loses pieces only, and after a `true` no piece of the mover stands
on the destination, nor does a piece of the opponent when the opponent's positions were
pairwise distinct. -/
theorem handleCaptures_spec (ps : Players) (player : Player) (piece : Piece)
    (x y newX newY : Int) (ps1 : Players) (b : Bool)
    (hc : handleCapturesAndCollisions ps player piece x y newX newY = some (ps1, b)) :
    (ps1.get player).pieces = (ps.get player).pieces ∧
    List.Sublist (ps1.get (opponentOf player)).pieces (ps.get (opponentOf player)).pieces ∧
    (b = true → (⟨newX, newY⟩ : Position) ∉ positionsOf (ps.get player).pieces) ∧
    (b = true → (positionsOf (ps.get (opponentOf player)).pieces).Nodup →
      (⟨newX, newY⟩ : Position) ∉ positionsOf (ps1.get (opponentOf player)).pieces) := by
  cases player with
  | A =>
    rw [handleCaptures_A] at hc
    split at hc
    · exact absurd hc (by simp)
    · rename_i path hpath
      by_cases h2 : (scanPieces Player.A Player.A Player.B piece path newX newY
          ps.A.pieces).2 = false
      · rw [if_pos h2] at hc
        simp only [Option.some.injEq, Prod.mk.injEq] at hc
        obtain ⟨rfl, rfl⟩ := hc
        exact ⟨rfl, List.Sublist.refl _, fun h => absurd h (by simp),
          fun h => absurd h (by simp)⟩
      · rw [if_neg h2] at hc
        simp only [Option.some.injEq, Prod.mk.injEq] at hc
        obtain ⟨rfl, rfl⟩ := hc
        refine ⟨rfl, ?_, fun _ => ?_, fun _ hnd => ?_⟩
        · exact scanPieces_sublist _ _ _ _ _ _ _ _
        · exact scanPieces_mover_clear Player.A piece path newX newY _ (by simpa using h2)
        · exact scanPieces_opponent_clear Player.B Player.A piece path newX newY _
            (by decide) hnd
  | B =>
    rw [handleCaptures_B] at hc
    split at hc
    · exact absurd hc (by simp)
    · rename_i path hpath
      by_cases h2 : (scanPieces Player.B Player.B Player.A piece path newX newY
          ps.B.pieces).2 = false
      · rw [if_pos h2] at hc
        simp only [Option.some.injEq, Prod.mk.injEq] at hc
        obtain ⟨rfl, rfl⟩ := hc
        exact ⟨rfl, scanPieces_sublist _ _ _ _ _ _ _ _, fun h => absurd h (by simp),
          fun h => absurd h (by simp)⟩
      · rw [if_neg h2] at hc
        simp only [Option.some.injEq, Prod.mk.injEq] at hc
        obtain ⟨rfl, rfl⟩ := hc
        refine ⟨rfl, ?_, fun _ => ?_, fun _ hnd => ?_⟩
        · exact scanPieces_sublist _ _ _ _ _ _ _ _
        · exact scanPieces_mover_clear Player.B piece path newX newY _ (by simpa using h2)
        · exact scanPieces_opponent_clear Player.A Player.B piece path newX newY _
            (by decide) hnd

theorem handleCaptures_eliminated (ps : Players) (player : Player) (piece : Piece)
    (x y newX newY : Int) (ps1 : Players) (b : Bool)
    (hc : handleCapturesAndCollisions ps player piece x y newX newY = some (ps1, b)) :
    ps1.A.eliminated = ps.A.eliminated ∧ ps1.B.eliminated = ps.B.eliminated := by
  cases player with
  | A =>
    rw [handleCaptures_A] at hc
    split at hc
    · exact absurd hc (by simp)
    · split_ifs at hc <;>
      · simp only [Option.some.injEq, Prod.mk.injEq] at hc
        obtain ⟨rfl, _⟩ := hc
        exact ⟨rfl, rfl⟩
  | B =>
    rw [handleCaptures_B] at hc
    split at hc
    · exact absurd hc (by simp)
    · split_ifs at hc <;>
      · simp only [Option.some.injEq, Prod.mk.injEq] at hc
        obtain ⟨rfl, _⟩ := hc
        exact ⟨rfl, rfl⟩

theorem setPosition_length (pieceId : String) (pos : Position) (l : List Piece) :
    (setPosition pieceId pos l).length = l.length := by
  induction l with
  | nil => rfl
  | cons p rest ih =>
    rw [setPosition]
    split_ifs
    · rfl
    · simp [ih]

theorem ne_nil_of_find (l : List Piece) (f : Piece → Bool) (p : Piece)
    (h : l.find? f = some p) : l ≠ [] := by
  intro hl
  rw [hl] at h
  exact absurd h (by simp)

/-! ## Well-formed states are closed under moves -/
theorem isPositionWithinBounds_iff (x y : Int) :
    isPositionWithinBounds x y = true ↔ 0 ≤ x ∧ x < 5 ∧ 0 ≤ y ∧ y < 5 := by
  simp [isPositionWithinBounds, and_assoc]

theorem Board.write_length (b b1 : Board) (x y : Int) (v : Cell)
    (h : Board.write b x y v = some b1) : b1.length = b.length := by
  unfold Board.write at h
  split at h
  · exact absurd h (by simp)
  · simp only [Option.some.injEq] at h
    rw [← h, List.length_set]

theorem Board.write_isSome (b : Board) (x y : Int) (v : Cell)
    (h0 : 0 ≤ y) (h1 : y < b.length) : ∃ b1, Board.write b x y v = some b1 := by
  have h2 : y.toNat < b.length := by omega
  unfold Board.write Board.row
  rw [if_neg (by omega), List.get?_eq_getElem?, List.getElem?_eq_getElem h2]
  exact ⟨_, rfl⟩

theorem placeRoster_ok (l : List Piece) (b : Board) (hb : b.length = 5)
    (hl : ∀ p ∈ l, isPositionWithinBounds p.position.x p.position.y = true) :
    ∃ b1, placeRoster b l = Except.ok b1 ∧ b1.length = 5 := by
  induction l generalizing b with
  | nil => exact ⟨b, rfl, hb⟩
  | cons p rest ih =>
    have hp := (isPositionWithinBounds_iff _ _).mp (hl p (List.mem_cons_self _ _))
    obtain ⟨b1, hw⟩ := Board.write_isSome b p.position.x p.position.y (Cell.id p.id) hp.2.2.1
      (by rw [hb]; exact_mod_cast hp.2.2.2)
    rw [placeRoster, hw]
    exact ih b1 (by rw [Board.write_length _ _ _ _ _ hw, hb])
      (fun q hq => hl q (List.mem_cons_of_mem _ hq))

theorem initializeGame_returns (a b : List Piece)
    (hin : ∀ p ∈ a ++ b, isPositionWithinBounds p.position.x p.position.y = true) :
    (initializeGame a b).outcome = Outcome.returned () ∧
    (initializeGame a b).state.board.length = 5 ∧
    (initializeGame a b).state.players =
      some { A := { pieces := a, eliminated := [] }, B := { pieces := b, eliminated := [] } } ∧
    (initializeGame a b).state.currentPlayer = some Player.A := by
  obtain ⟨b1, h1, hl1⟩ := placeRoster_ok a emptyBoard rfl
    (fun p hp => hin p (List.mem_append_left _ hp))
  obtain ⟨b2, h2, hl2⟩ := placeRoster_ok b b1 hl1
    (fun p hp => hin p (List.mem_append_right _ hp))
  have h3 : initializeGame a b =
      { state := { board := b2,
                   players := some { A := { pieces := a, eliminated := [] },
                                     B := { pieces := b, eliminated := [] } },
                   currentPlayer := some Player.A },
        outcome := Outcome.returned (), events := [] } := by
    simp only [initializeGame, placePiecesOnBoard, h1, h2]
  rw [h3]
  exact ⟨rfl, hl2, rfl, rfl⟩

theorem handleCaptures_sublists (ps : Players) (player : Player) (piece : Piece)
    (x y newX newY : Int) (ps1 : Players) (b : Bool)
    (hc : handleCapturesAndCollisions ps player piece x y newX newY = some (ps1, b)) :
    List.Sublist ps1.A.pieces ps.A.pieces ∧ List.Sublist ps1.B.pieces ps.B.pieces := by
  have h := handleCaptures_spec ps player piece x y newX newY ps1 b hc
  cases player with
  | A => exact ⟨by rw [show ps1.A.pieces = ps.A.pieces from h.1], h.2.1⟩
  | B => exact ⟨h.2.1, by rw [show ps1.B.pieces = ps.B.pieces from h.1]⟩

theorem inBounds_of_sublists (ps ps1 : Players) (hA : List.Sublist ps1.A.pieces ps.A.pieces)
    (hB : List.Sublist ps1.B.pieces ps.B.pieces) (h : InBounds ps) : InBounds ps1 := by
  intro p hp
  exact h p ((hA.append hB).subset hp)

theorem distinct_of_sublists (ps ps1 : Players) (hA : List.Sublist ps1.A.pieces ps.A.pieces)
    (hB : List.Sublist ps1.B.pieces ps.B.pieces) (h : DistinctPositions ps) :
    DistinctPositions ps1 :=
  List.Nodup.sublist (positionsOf_sublist (hA.append hB)) h

theorem mem_setPosition (pieceId : String) (pos : Position) (l : List Piece) (q : Piece)
    (h : q ∈ setPosition pieceId pos l) : q ∈ l ∨ q.position = pos := by
  induction l with
  | nil => simp [setPosition] at h
  | cons p rest ih =>
    rw [setPosition] at h
    by_cases hid : p.id = pieceId
    · rw [if_pos hid] at h
      rcases List.mem_cons.mp h with h | h
      · exact Or.inr (by rw [h])
      · exact Or.inl (List.mem_cons_of_mem _ h)
    · rw [if_neg hid] at h
      rcases List.mem_cons.mp h with h | h
      · exact Or.inl (by rw [h]; exact List.mem_cons_self _ _)
      · rcases ih h with h2 | h2
        · exact Or.inl (List.mem_cons_of_mem _ h2)
        · exact Or.inr h2

theorem inBounds_movePiece (ps1 : Players) (player : Player) (pieceId : String)
    (newX newY : Int) (h : InBounds ps1) (hb : isPositionWithinBounds newX newY = true) :
    InBounds (movePiece ps1 player pieceId newX newY) := by
  intro p hp
  cases player with
  | A =>
    rcases List.mem_append.mp hp with hp | hp
    · rcases mem_setPosition _ _ _ _ hp with h2 | h2
      · exact h p (List.mem_append_left _ h2)
      · rw [h2]; exact hb
    · exact h p (List.mem_append_right _ hp)
  | B =>
    rcases List.mem_append.mp hp with hp | hp
    · exact h p (List.mem_append_left _ hp)
    · rcases mem_setPosition _ _ _ _ hp with h2 | h2
      · exact h p (List.mem_append_right _ h2)
      · rw [h2]; exact hb

theorem distinct_movePiece (ps1 : Players) (player : Player) (pieceId : String)
    (newX newY : Int) (h : DistinctPositions ps1)
    (hm : (⟨newX, newY⟩ : Position) ∉ positionsOf (ps1.get player).pieces)
    (ho : (⟨newX, newY⟩ : Position) ∉ positionsOf (ps1.get (opponentOf player)).pieces) :
    DistinctPositions (movePiece ps1 player pieceId newX newY) := by
  unfold DistinctPositions at h ⊢
  rw [positionsOf_append] at h ⊢
  cases player with
  | A => exact setPosition_nodup pieceId _ ps1.A.pieces ps1.B.pieces h hm ho
  | B =>
    exact List.nodup_append_comm.mp
      (setPosition_nodup pieceId _ ps1.B.pieces ps1.A.pieces (List.nodup_append_comm.mp h) hm ho)

theorem distinct_get (ps : Players) (player : Player) (h : DistinctPositions ps) :
    (positionsOf (ps.get player).pieces).Nodup := by
  unfold DistinctPositions at h
  rw [positionsOf_append] at h
  cases player with
  | A => exact (List.nodup_append.mp h).1
  | B => exact (List.nodup_append.mp h).2.1

theorem commitMove_wellFormed (s : GameState) (ps1 : Players) (player : Player)
    (pieceId : String) (piece : Piece) (x y newX newY : Int)
    (hlen : s.board.length = 5) (hcur : s.currentPlayer ≠ none)
    (hxy : isPositionWithinBounds x y = true) (hnew : isPositionWithinBounds newX newY = true)
    (hin : InBounds ps1) (hd : DistinctPositions ps1)
    (hm : (⟨newX, newY⟩ : Position) ∉ positionsOf (ps1.get player).pieces)
    (ho : (⟨newX, newY⟩ : Position) ∉ positionsOf (ps1.get (opponentOf player)).pieces) :
    WellFormed (commitMove s ps1 player pieceId piece x y newX newY).state ∧
    ∃ b, (commitMove s ps1 player pieceId piece x y newX newY).outcome = Outcome.returned b := by
  have hxy2 := (isPositionWithinBounds_iff _ _).mp hxy
  have hnew2 := (isPositionWithinBounds_iff _ _).mp hnew
  obtain ⟨b1, hw1⟩ := Board.write_isSome s.board x y Cell.null hxy2.2.2.1
    (by rw [hlen]; exact_mod_cast hxy2.2.2.2)
  have hlen1 : b1.length = 5 := by rw [Board.write_length _ _ _ _ _ hw1, hlen]
  obtain ⟨b2, hw2⟩ := Board.write_isSome b1 newX newY (Cell.id piece.id) hnew2.2.2.1
    (by rw [hlen1]; exact_mod_cast hnew2.2.2.2)
  have hlen2 : b2.length = 5 := by rw [Board.write_length _ _ _ _ _ hw2, hlen1]
  have hwf : ∀ st : GameState, st.board = b2 → st.currentPlayer = s.currentPlayer →
      st.players = some (movePiece ps1 player pieceId newX newY) → WellFormed st := by
    intro st h1 h2 h3
    refine ⟨by rw [h1]; exact hlen2, by rw [h2]; exact hcur, _, h3, ?_, ?_⟩
    · exact inBounds_movePiece ps1 player pieceId newX newY hin hnew
    · exact distinct_movePiece ps1 player pieceId newX newY hd hm ho
  unfold commitMove
  rw [hw1]
  dsimp only
  rw [hw2]
  dsimp only
  split_ifs
  · exact ⟨hwf _ rfl rfl rfl, _, rfl⟩
  · exact ⟨hwf _ rfl rfl rfl, _, rfl⟩

theorem mem_rosters_of_get (ps : Players) (player : Player) (p : Piece)
    (h : p ∈ (ps.get player).pieces) : p ∈ ps.A.pieces ++ ps.B.pieces := by
  cases player with
  | A => exact List.mem_append_left _ h
  | B => exact List.mem_append_right _ h

theorem processMove_wellFormed (s : GameState) (player : Player) (pieceId move : String)
    (h : WellFormed s) :
    WellFormed (processMove s player pieceId move).state ∧
    ∃ b, (processMove s player pieceId move).outcome = Outcome.returned b := by
  obtain ⟨hlen, hcur, ps, hps, hin, hd⟩ := h
  by_cases hg : passesGates ps player pieceId move = true
  · obtain ⟨piece, np, ps1, hf, hr, hb, hc⟩ := passesGates_inv ps player pieceId move hg
    rw [processMove_of_gates s ps player pieceId move piece np ps1 hps hf hr hb hc]
    have hspec := handleCaptures_spec ps player piece _ _ _ _ ps1 true hc
    have hsub := handleCaptures_sublists ps player piece _ _ _ _ ps1 true hc
    have hmem : piece ∈ ps.A.pieces ++ ps.B.pieces :=
      mem_rosters_of_get ps player piece (List.mem_of_find?_eq_some hf)
    refine commitMove_wellFormed s ps1 player pieceId piece _ _ _ _ hlen hcur (hin piece hmem) hb
      (inBounds_of_sublists ps ps1 hsub.1 hsub.2 hin)
      (distinct_of_sublists ps ps1 hsub.1 hsub.2 hd) ?_ ?_
    · rw [hspec.1]
      exact hspec.2.2.1 rfl
    · exact hspec.2.2.2 rfl (distinct_get ps (opponentOf player) hd)
  · have hg2 : passesGates ps player pieceId move = false := by simpa using hg
    rcases processMove_of_not_gates s ps player pieceId move hps hg2 with h1 | h1
    · rw [h1]
      exact ⟨⟨hlen, hcur, ps, hps, hin, hd⟩, false, rfl⟩
    · obtain ⟨piece, np, ps1, _, _, hc, h2⟩ := h1
      have hsub := handleCaptures_sublists ps player piece _ _ _ _ ps1 false hc
      rw [h2]
      exact ⟨⟨hlen, hcur, ps1, rfl, inBounds_of_sublists ps ps1 hsub.1 hsub.2 hin,
        distinct_of_sublists ps ps1 hsub.1 hsub.2 hd⟩, false, rfl⟩

theorem handleMove_wellFormed (s : GameState) (player : Player) (pieceId move : String)
    (h : WellFormed s) :
    WellFormed (handleMove s player pieceId move).state ∧
    (handleMove s player pieceId move).outcome = Outcome.returned () := by
  unfold handleMove handleMoveWith
  by_cases hturn : some player = s.currentPlayer
  · rw [if_pos hturn]
    obtain ⟨hwf, b, hb⟩ := processMove_wellFormed s player pieceId move h
    rw [hb]
    cases b with
    | false => exact ⟨hwf, rfl⟩
    | true =>
      refine ⟨?_, rfl⟩
      obtain ⟨hlen, _, ps, hps, hin, hd⟩ := hwf
      refine ⟨hlen, ?_, ps, hps, hin, hd⟩
      dsimp only
      split_ifs <;> simp
  · rw [if_neg hturn]
    exact ⟨h, rfl⟩

theorem runMoves_wellFormed (cmds : List MoveCommand) (s : GameState) (h : WellFormed s) :
    WellFormed (runMoves s cmds).state ∧ (runMoves s cmds).outcome = Outcome.returned () := by
  induction cmds generalizing s with
  | nil => exact ⟨h, rfl⟩
  | cons c cs ih =>
    obtain ⟨hwf, hret⟩ := handleMove_wellFormed s c.player c.pieceId c.move h
    rw [runMoves, hret]
    exact ih _ hwf

/-! ## Game over and messages: auxiliary facts -/
theorem commitMove_returned (s : GameState) (ps1 : Players) (player : Player)
    (pieceId : String) (piece : Piece) (x y newX newY : Int) (b : Bool)
    (hret : (commitMove s ps1 player pieceId piece x y newX newY).outcome =
      Outcome.returned b) :
    (commitMove s ps1 player pieceId piece x y newX newY).state.players =
      some (movePiece ps1 player pieceId newX newY) ∧
    (commitMove s ps1 player pieceId piece x y newX newY).events =
      (checkGameOver (movePiece ps1 player pieceId newX newY)).2 ∧
    b = !(checkGameOver (movePiece ps1 player pieceId newX newY)).1 := by
  unfold commitMove at hret ⊢
  cases hw1 : Board.write s.board x y Cell.null with
  | none =>
    rw [hw1] at hret
    exact absurd hret (by simp)
  | some b1 =>
    rw [hw1] at hret
    dsimp only at hret ⊢
    cases hw2 : Board.write b1 newX newY (Cell.id piece.id) with
    | none =>
      rw [hw2] at hret
      exact absurd hret (by simp)
    | some b2 =>
      rw [hw2] at hret
      dsimp only at hret ⊢
      by_cases hover : (checkGameOver (movePiece ps1 player pieceId newX newY)).1 = true
      · rw [if_pos hover] at hret ⊢
        simp only [Outcome.returned.injEq] at hret
        exact ⟨rfl, rfl, by rw [hover, ← hret]; rfl⟩
      · rw [if_neg hover] at hret ⊢
        simp only [Outcome.returned.injEq] at hret
        have h2 : (checkGameOver (movePiece ps1 player pieceId newX newY)).1 = false := by
          simpa using hover
        exact ⟨rfl, rfl, by rw [h2, ← hret]; rfl⟩

theorem movePiece_mover_ne_nil (ps1 : Players) (player : Player) (pieceId : String)
    (newX newY : Int) (h : (ps1.get player).pieces ≠ []) :
    ((movePiece ps1 player pieceId newX newY).get player).pieces ≠ [] := by
  unfold movePiece
  rw [get_setPieces_self]
  intro h2
  apply h
  have h3 := setPosition_length pieceId ⟨newX, newY⟩ (ps1.get player).pieces
  rw [h2] at h3
  exact List.length_eq_zero.mp h3.symm

theorem checkGameOver_of_mover (ps2 : Players) (player : Player)
    (h : (ps2.get player).pieces ≠ []) :
    ((ps2.A.pieces = [] ∨ ps2.B.pieces = []) →
      checkGameOver ps2 = (true, [broadcastGameOver player])) ∧
    (¬ (ps2.A.pieces = [] ∨ ps2.B.pieces = []) → checkGameOver ps2 = (false, [])) := by
  unfold checkGameOver
  simp only [List.length_eq_zero]
  cases player with
  | A =>
    have hA : ps2.A.pieces ≠ [] := h
    constructor
    · intro h2
      rcases h2 with h2 | h2
      · exact absurd h2 hA
      · rw [if_neg hA, if_pos h2]
        rfl
    · intro h2
      rw [if_neg hA, if_neg (fun h3 => h2 (Or.inr h3))]
  | B =>
    have hB : ps2.B.pieces ≠ [] := h
    constructor
    · intro h2
      rcases h2 with h2 | h2
      · rw [if_pos h2]
        rfl
      · exact absurd h2 hB
    · intro h2
      rw [if_neg (fun h3 => h2 (Or.inl h3)), if_neg hB]

theorem checkGameOver_events (ps : Players) (e : Event) (h : e ∈ (checkGameOver ps).2) :
    e.recipient = Recipient.allClients := by
  unfold checkGameOver at h
  split_ifs at h
  · rw [List.mem_singleton.mp h]; rfl
  · rw [List.mem_singleton.mp h]; rfl
  · exact absurd h (List.not_mem_nil _)

theorem commitMove_events (s : GameState) (ps1 : Players) (player : Player)
    (pieceId : String) (piece : Piece) (x y newX newY : Int) (e : Event)
    (h : e ∈ (commitMove s ps1 player pieceId piece x y newX newY).events) :
    e.recipient = Recipient.allClients := by
  unfold commitMove at h
  repeat' split at h
  all_goals first
    | exact absurd h (List.not_mem_nil _)
    | exact checkGameOver_events _ e h

theorem processMove_events (s : GameState) (player : Player) (pieceId move : String)
    (e : Event) (h : e ∈ (processMove s player pieceId move).events) :
    e.recipient = Recipient.allClients := by
  unfold processMove at h
  repeat' split at h
  all_goals first
    | exact absurd h (List.not_mem_nil _)
    | exact commitMove_events _ _ _ _ _ _ _ _ _ e h

theorem initializeGame_currentPlayer (a b : List Piece) :
    (initializeGame a b).state.currentPlayer = some Player.A := by
  unfold initializeGame placePiecesOnBoard
  repeat' split
  all_goals rfl

theorem handleMove_currentPlayer_ne_none (s : GameState) (player : Player)
    (pieceId move : String) (h : s.currentPlayer ≠ none) :
    (handleMove s player pieceId move).state.currentPlayer ≠ none := by
  have h1 : (processMove s player pieceId move).state.currentPlayer ≠ none := by
    rw [processMove_currentPlayer]
    exact h
  unfold handleMove handleMoveWith
  by_cases hturn : some player = s.currentPlayer
  · rw [if_pos hturn]
    cases hout : (processMove s player pieceId move).outcome with
    | returned v =>
      cases v with
      | false => exact h1
      | true =>
        dsimp only
        split_ifs <;> simp
    | threw => exact h1
    | diverged => exact h1
  · rw [if_neg hturn]
    exact h

theorem runMoves_currentPlayer_ne_none (cmds : List MoveCommand) (s : GameState)
    (h : s.currentPlayer ≠ none) : (runMoves s cmds).state.currentPlayer ≠ none := by
  induction cmds generalizing s with
  | nil => exact h
  | cons c cs ih =>
    have h1 := handleMove_currentPlayer_ne_none s c.player c.pieceId c.move h
    rw [runMoves]
    split
    · exact ih _ h1
    · exact h1
    · exact h1

/-! ## Claims C1 to C10 -/

/-- Claim C1 fails at a friendly-fire attempt by B: in `friendlyFireGame` (all pieces inside
the grid, on distinct cells) the Hero b1 of B going forward resolves to (0,2), where B's own
pawn b2 stands; `processMove` returns `false`, yet the pawn a1 of A, which stood on the path
cell (0,3), is gone from A's roster, while the board still shows a1 on (0,3). -/
theorem friendly_fire_by_B_drops_path_piece :
    friendlyFireGame.players =
        some ⟨⟨[⟨"a1", "P", ⟨0, 3⟩⟩, ⟨"a2", "P", ⟨4, 1⟩⟩], []⟩,
              ⟨[⟨"b1", "H1", ⟨0, 4⟩⟩, ⟨"b2", "P", ⟨0, 2⟩⟩], []⟩⟩ ∧
    friendlyFireGame.currentPlayer = some Player.B ∧
    resolveMove Player.B ⟨"b1", "H1", ⟨0, 4⟩⟩ "F" = some ⟨0, 2⟩ ∧
    (processMove friendlyFireGame Player.B "b1" "F").outcome = Outcome.returned false ∧
    (processMove friendlyFireGame Player.B "b1" "F").state.players =
        some ⟨⟨[⟨"a2", "P", ⟨4, 1⟩⟩], []⟩,
              ⟨[⟨"b1", "H1", ⟨0, 4⟩⟩, ⟨"b2", "P", ⟨0, 2⟩⟩], []⟩⟩ ∧
    Board.read (processMove friendlyFireGame Player.B "b1" "F").state.board 0 3 =
        some (Cell.id "a1") := by
  decide

/-- Claim C2 fails at a blocked Hero move by B: in `blockedHeroGame` (all pieces inside the
grid, on distinct cells) the Hero b1 of B going forward resolves to (0,2) and its path cell
(0,3) holds B's own pawn b2; `processMove` returns `false`, yet the pawn a1 of A, which stood
on the destination, is gone from A's roster, while the board still shows a1 on (0,2). -/
theorem blocked_hero_of_B_drops_destination_piece :
    blockedHeroGame.players =
        some ⟨⟨[⟨"a1", "P", ⟨0, 2⟩⟩, ⟨"a2", "P", ⟨4, 1⟩⟩], []⟩,
              ⟨[⟨"b1", "H1", ⟨0, 4⟩⟩, ⟨"b2", "P", ⟨0, 3⟩⟩], []⟩⟩ ∧
    blockedHeroGame.currentPlayer = some Player.B ∧
    resolveMove Player.B ⟨"b1", "H1", ⟨0, 4⟩⟩ "F" = some ⟨0, 2⟩ ∧
    calculatePath 0 4 0 2 = some [⟨0, 3⟩] ∧
    (processMove blockedHeroGame Player.B "b1" "F").outcome = Outcome.returned false ∧
    (processMove blockedHeroGame Player.B "b1" "F").state.players =
        some ⟨⟨[⟨"a2", "P", ⟨4, 1⟩⟩], []⟩,
              ⟨[⟨"b1", "H1", ⟨0, 4⟩⟩, ⟨"b2", "P", ⟨0, 3⟩⟩], []⟩⟩ ∧
    Board.read (processMove blockedHeroGame Player.B "b1" "F").state.board 0 2 =
        some (Cell.id "a1") := by
  decide

/-- Claim C3 fails when the opponent's piece on the destination is listed before the one on
the path: in `pathCaptureGame` the Hero a1 of A going forward passes every gate and lands on
(0,2), the pawn b1 on the destination is removed, but the pawn b2 on the path cell (0,1) is
still in B's roster afterwards.  With B's roster in the other order both pawns are removed. -/
theorem path_piece_survives_destination_capture :
    pathCaptureGame.players =
        some ⟨⟨[⟨"a1", "H1", ⟨0, 0⟩⟩], []⟩,
              ⟨[⟨"b1", "P", ⟨0, 2⟩⟩, ⟨"b2", "P", ⟨0, 1⟩⟩], []⟩⟩ ∧
    calculatePath 0 0 0 2 = some [⟨0, 1⟩] ∧
    passesGates ⟨⟨[⟨"a1", "H1", ⟨0, 0⟩⟩], []⟩,
                 ⟨[⟨"b1", "P", ⟨0, 2⟩⟩, ⟨"b2", "P", ⟨0, 1⟩⟩], []⟩⟩ Player.A "a1" "F" = true ∧
    (processMove pathCaptureGame Player.A "a1" "F").outcome = Outcome.returned true ∧
    (processMove pathCaptureGame Player.A "a1" "F").state.players =
        some ⟨⟨[⟨"a1", "H1", ⟨0, 2⟩⟩], []⟩, ⟨[⟨"b2", "P", ⟨0, 1⟩⟩], []⟩⟩ ∧
    (processMove
        (initializeGame [⟨"a1", "H1", ⟨0, 0⟩⟩]
          [⟨"b2", "P", ⟨0, 1⟩⟩, ⟨"b1", "P", ⟨0, 2⟩⟩]).state
        Player.A "a1" "F").state.players =
        some ⟨⟨[⟨"a1", "H1", ⟨0, 2⟩⟩], []⟩, ⟨[], []⟩⟩ := by
  decide

/-- Claim C4 fails after a capture on the path: from `staleCellGame`, reached by
`initializeGame` with pieces inside the grid on distinct cells, the move of the Hero a1
forward is accepted and removes the pawn b1 from B's roster, so no roster piece stands on
(0,1) any more, but the board cell (0,1) still holds the id b1 instead of `null`. -/
theorem board_keeps_id_of_path_capture :
    (handleMove staleCellGame Player.A "a1" "F").state.players =
        some ⟨⟨[⟨"a1", "H1", ⟨0, 2⟩⟩], []⟩, ⟨[⟨"b2", "P", ⟨4, 4⟩⟩], []⟩⟩ ∧
    (handleMove staleCellGame Player.A "a1" "F").outcome = Outcome.returned () ∧
    (handleMove staleCellGame Player.A "a1" "F").state.currentPlayer = some Player.B ∧
    Board.read (handleMove staleCellGame Player.A "a1" "F").state.board 0 1 =
        some (Cell.id "b1") ∧
    Board.read (handleMove staleCellGame Player.A "a1" "F").state.board 0 0 = some Cell.null ∧
    Board.read (handleMove staleCellGame Player.A "a1" "F").state.board 0 2 =
        some (Cell.id "a1") := by
  decide

/-- Claim C5 fails as stated: in `finishedGame` the roster of B is empty and A is to move, and
the command of A to move its pawn a1 forward still changes A's roster and the board. -/
theorem finished_match_still_moves :
    finishedGame.players = some ⟨⟨[⟨"a1", "P", ⟨0, 1⟩⟩], []⟩, ⟨[], []⟩⟩ ∧
    finishedGame.currentPlayer = some Player.A ∧
    Board.read finishedGame.board 0 1 = some (Cell.id "a1") ∧
    (handleMove finishedGame Player.A "a1" "F").state.players =
        some ⟨⟨[⟨"a1", "P", ⟨0, 2⟩⟩], []⟩, ⟨[], []⟩⟩ ∧
    Board.read (handleMove finishedGame Player.A "a1" "F").state.board 0 1 = some Cell.null ∧
    Board.read (handleMove finishedGame Player.A "a1" "F").state.board 0 2 =
        some (Cell.id "a1") ∧
    (handleMove finishedGame Player.A "a1" "F").state ≠ finishedGame := by
  decide

/-- Claim C5 as amended: in every state in which one roster is empty, a move command that is
out of turn, or that fails a gate of `processMove`, is answered `outOfTurn` respectively
`invalidMove` to the sender only and leaves the board, both rosters and `currentPlayer`
unchanged. -/
theorem finished_rejection_leaves_state (s : GameState) (ps : Players) (player : Player)
    (pieceId move : String) (hps : s.players = some ps)
    (hfin : ps.A.pieces = [] ∨ ps.B.pieces = [])
    (hrej : some player ≠ s.currentPlayer ∨ passesGates ps player pieceId move = false) :
    handleMove s player pieceId move =
      { state := s, outcome := Outcome.returned (),
        events := [⟨Recipient.sender,
          if some player = s.currentPlayer then Message.invalidMove else Message.outOfTurn⟩] } := by
  unfold handleMove handleMoveWith
  by_cases hturn : some player = s.currentPlayer
  · rw [if_pos hturn, if_pos hturn]
    have hg : passesGates ps player pieceId move = false := by
      rcases hrej with h | h
      · exact absurd hturn h
      · exact h
    have hpm : processMove s player pieceId move =
        { state := s, outcome := Outcome.returned false, events := [] } := by
      rcases processMove_of_not_gates s ps player pieceId move hps hg with h1 | h1
      · exact h1
      · obtain ⟨piece, np, ps1, hf, _, hc, h2⟩ := h1
        have h3 := handleCaptures_false_of_empty ps player piece _ _ _ _ ps1 hfin
          (ne_nil_of_find _ _ piece hf) hc
        rw [h2, h3, ← hps]
    rw [hpm]
    rfl
  · rw [if_neg hturn, if_neg hturn]

/-- An instance of `finished_rejection_leaves_state`: in `finishedGame` the pawn a1 of A sent
to the left would leave the grid. -/
theorem finished_rejection_leaves_state_witness :
    finishedGame.players = some ⟨⟨[⟨"a1", "P", ⟨0, 1⟩⟩], []⟩, ⟨[], []⟩⟩ ∧
    passesGates ⟨⟨[⟨"a1", "P", ⟨0, 1⟩⟩], []⟩, ⟨[], []⟩⟩ Player.A "a1" "L" = false ∧
    handleMove finishedGame Player.A "a1" "L" =
      { state := finishedGame, outcome := Outcome.returned (),
        events := [⟨Recipient.sender,
          if some Player.A = finishedGame.currentPlayer then Message.invalidMove
          else Message.outOfTurn⟩] } :=
  ⟨by decide, by decide,
    finished_rejection_leaves_state finishedGame ⟨⟨[⟨"a1", "P", ⟨0, 1⟩⟩], []⟩, ⟨[], []⟩⟩
      Player.A "a1" "L" (by decide) (Or.inr rfl) (Or.inr (by decide))⟩

/-- Claim C6 fails at the capture of the last piece: in `lastPieceGame` the pawn a1 of A going
forward passes every gate and the move is committed (a1 stands on (0,1) in the roster and on
the board, b1 is captured), yet `processMove` returns `false` and the handler answers
`invalidMove` to the sender, after the `gameOver` broadcast. -/
theorem last_capture_answered_invalid :
    lastPieceGame.players =
        some ⟨⟨[⟨"a1", "P", ⟨0, 0⟩⟩], []⟩, ⟨[⟨"b1", "P", ⟨0, 1⟩⟩], []⟩⟩ ∧
    lastPieceGame.currentPlayer = some Player.A ∧
    passesGates ⟨⟨[⟨"a1", "P", ⟨0, 0⟩⟩], []⟩, ⟨[⟨"b1", "P", ⟨0, 1⟩⟩], []⟩⟩
        Player.A "a1" "F" = true ∧
    (processMove lastPieceGame Player.A "a1" "F").outcome = Outcome.returned false ∧
    (processMove lastPieceGame Player.A "a1" "F").state.players =
        some ⟨⟨[⟨"a1", "P", ⟨0, 1⟩⟩], []⟩, ⟨[], []⟩⟩ ∧
    Board.read (processMove lastPieceGame Player.A "a1" "F").state.board 0 0 =
        some Cell.null ∧
    Board.read (processMove lastPieceGame Player.A "a1" "F").state.board 0 1 =
        some (Cell.id "a1") ∧
    (handleMove lastPieceGame Player.A "a1" "F").events =
        [⟨Recipient.allClients, Message.gameOver Player.A⟩,
         ⟨Recipient.sender, Message.invalidMove⟩] ∧
    (handleMove lastPieceGame Player.A "a1" "F").state.currentPlayer = some Player.A := by
  decide

/-- Claim C7: for every move that `processMove` commits (every gate passed, the call
returns), the messages sent are exactly one `gameOver` message to all clients when some
roster is empty after the commit and none otherwise, and the winner named in that message is
the player who just moved, whose own roster is not empty. -/
theorem gameOver_winner_is_mover (s : GameState) (ps : Players) (player : Player)
    (pieceId move : String) (b : Bool) (hps : s.players = some ps)
    (hg : passesGates ps player pieceId move = true)
    (hret : (processMove s player pieceId move).outcome = Outcome.returned b) :
    ∃ ps2, (processMove s player pieceId move).state.players = some ps2 ∧
      (ps2.get player).pieces ≠ [] ∧
      ((ps2.A.pieces = [] ∨ ps2.B.pieces = []) →
        (processMove s player pieceId move).events =
          [⟨Recipient.allClients, Message.gameOver player⟩]) ∧
      (¬ (ps2.A.pieces = [] ∨ ps2.B.pieces = []) →
        (processMove s player pieceId move).events = []) := by
  obtain ⟨piece, np, ps1, hf, hr, hb, hc⟩ := passesGates_inv ps player pieceId move hg
  rw [processMove_of_gates s ps player pieceId move piece np ps1 hps hf hr hb hc] at hret ⊢
  obtain ⟨h1, h2, _⟩ := commitMove_returned s ps1 player pieceId piece _ _ _ _ b hret
  have hspec := handleCaptures_spec ps player piece _ _ _ _ ps1 true hc
  have hne : (ps1.get player).pieces ≠ [] := by
    rw [hspec.1]
    exact ne_nil_of_find _ _ piece hf
  have hne2 := movePiece_mover_ne_nil ps1 player pieceId np.x np.y hne
  have hover := checkGameOver_of_mover _ player hne2
  refine ⟨_, h1, hne2, fun h3 => ?_, fun h3 => ?_⟩
  · rw [h2, hover.1 h3]
    rfl
  · rw [h2, hover.2 h3]

/-- An instance of `gameOver_winner_is_mover`: the capture of B's only piece in
`lastPieceGame`. -/
theorem gameOver_winner_is_mover_witness :
    lastPieceGame.players =
        some ⟨⟨[⟨"a1", "P", ⟨0, 0⟩⟩], []⟩, ⟨[⟨"b1", "P", ⟨0, 1⟩⟩], []⟩⟩ ∧
    passesGates ⟨⟨[⟨"a1", "P", ⟨0, 0⟩⟩], []⟩, ⟨[⟨"b1", "P", ⟨0, 1⟩⟩], []⟩⟩
        Player.A "a1" "F" = true ∧
    (processMove lastPieceGame Player.A "a1" "F").outcome = Outcome.returned false ∧
    (processMove lastPieceGame Player.A "a1" "F").events =
      [⟨Recipient.allClients, Message.gameOver Player.A⟩] ∧
    ∃ ps2, (processMove lastPieceGame Player.A "a1" "F").state.players = some ps2 ∧
      (ps2.get Player.A).pieces ≠ [] ∧
      ((ps2.A.pieces = [] ∨ ps2.B.pieces = []) →
        (processMove lastPieceGame Player.A "a1" "F").events =
          [⟨Recipient.allClients, Message.gameOver Player.A⟩]) ∧
      (¬ (ps2.A.pieces = [] ∨ ps2.B.pieces = []) →
        (processMove lastPieceGame Player.A "a1" "F").events = []) :=
  ⟨by decide, by decide, by decide, by decide,
    gameOver_winner_is_mover lastPieceGame
      ⟨⟨[⟨"a1", "P", ⟨0, 0⟩⟩], []⟩, ⟨[⟨"b1", "P", ⟨0, 1⟩⟩], []⟩⟩ Player.A "a1" "F" false
      (by decide) (by decide) (by decide)⟩

/-- Claim C8: starting from `initializeGame` with rosters whose positions are inside the grid
and pairwise distinct across both players, every sequence of move commands, accepted or
rejected, by either player, is handled to the end without an exception, and afterwards no two
pieces in the union of the two rosters have the same position. -/
theorem one_piece_per_cell (a b : List Piece) (cmds : List MoveCommand)
    (hin : ∀ p ∈ a ++ b, isPositionWithinBounds p.position.x p.position.y = true)
    (hnd : (positionsOf (a ++ b)).Nodup) :
    (initializeGame a b).outcome = Outcome.returned () ∧
    (runMoves (initializeGame a b).state cmds).outcome = Outcome.returned () ∧
    ∃ ps, (runMoves (initializeGame a b).state cmds).state.players = some ps ∧
      (positionsOf (ps.A.pieces ++ ps.B.pieces)).Nodup := by
  obtain ⟨h1, h2, h3, h4⟩ := initializeGame_returns a b hin
  have hwf : WellFormed (initializeGame a b).state :=
    ⟨h2, by rw [h4]; simp, _, h3, hin, hnd⟩
  obtain ⟨⟨_, _, ps, hps, _, hd⟩, hret⟩ := runMoves_wellFormed cmds _ hwf
  exact ⟨h1, hret, ps, hps, hd⟩

/-- An instance of `one_piece_per_cell`: the rosters of `friendlyFireGame` and three
commands, of which the second is rejected after it has removed a piece. -/
theorem one_piece_per_cell_witness :
    (∀ p ∈ ([⟨"a1", "P", ⟨0, 3⟩⟩, ⟨"a2", "P", ⟨4, 0⟩⟩] : List Piece) ++
        [⟨"b1", "H1", ⟨0, 4⟩⟩, ⟨"b2", "P", ⟨0, 2⟩⟩],
      isPositionWithinBounds p.position.x p.position.y = true) ∧
    (positionsOf (([⟨"a1", "P", ⟨0, 3⟩⟩, ⟨"a2", "P", ⟨4, 0⟩⟩] : List Piece) ++
        [⟨"b1", "H1", ⟨0, 4⟩⟩, ⟨"b2", "P", ⟨0, 2⟩⟩])).Nodup ∧
    ((initializeGame [⟨"a1", "P", ⟨0, 3⟩⟩, ⟨"a2", "P", ⟨4, 0⟩⟩]
        [⟨"b1", "H1", ⟨0, 4⟩⟩, ⟨"b2", "P", ⟨0, 2⟩⟩]).outcome = Outcome.returned () ∧
     (runMoves (initializeGame [⟨"a1", "P", ⟨0, 3⟩⟩, ⟨"a2", "P", ⟨4, 0⟩⟩]
        [⟨"b1", "H1", ⟨0, 4⟩⟩, ⟨"b2", "P", ⟨0, 2⟩⟩]).state
        [⟨Player.A, "a2", "F"⟩, ⟨Player.B, "b1", "F"⟩, ⟨Player.B, "b2", "L"⟩]).outcome =
          Outcome.returned () ∧
     ∃ ps, (runMoves (initializeGame [⟨"a1", "P", ⟨0, 3⟩⟩, ⟨"a2", "P", ⟨4, 0⟩⟩]
        [⟨"b1", "H1", ⟨0, 4⟩⟩, ⟨"b2", "P", ⟨0, 2⟩⟩]).state
        [⟨Player.A, "a2", "F"⟩, ⟨Player.B, "b1", "F"⟩, ⟨Player.B, "b2", "L"⟩]).state.players =
          some ps ∧
       (positionsOf (ps.A.pieces ++ ps.B.pieces)).Nodup) :=
  ⟨by decide, by decide,
    one_piece_per_cell _ _ [⟨Player.A, "a2", "F"⟩, ⟨Player.B, "b1", "F"⟩, ⟨Player.B, "b2", "L"⟩]
      (by decide) (by decide)⟩

/-- Claim C9: for every state and every move command whose player differs from
`currentPlayer`, the handler answers `outOfTurn` to the sender only and leaves the board, both
rosters and `currentPlayer` unchanged, whatever function stands at the call site of
`processMove`: that call is never made. -/
theorem out_of_turn_rejected (s : GameState) (player : Player) (pieceId move : String)
    (hturn : some player ≠ s.currentPlayer) :
    handleMove s player pieceId move =
      { state := s, outcome := Outcome.returned (),
        events := [⟨Recipient.sender, Message.outOfTurn⟩] } ∧
    ∀ callee, handleMoveWith callee s player pieceId move = handleMove s player pieceId move := by
  unfold handleMove handleMoveWith
  rw [if_neg hturn]
  refine ⟨rfl, fun callee => ?_⟩
  rw [if_neg hturn]

/-- An instance of `out_of_turn_rejected`: B sends a command in `lastPieceGame`, where A is to
move. -/
theorem out_of_turn_rejected_witness :
    some Player.B ≠ lastPieceGame.currentPlayer ∧
    (handleMove lastPieceGame Player.B "b1" "F" =
      { state := lastPieceGame, outcome := Outcome.returned (),
        events := [⟨Recipient.sender, Message.outOfTurn⟩] } ∧
     ∀ callee, handleMoveWith callee lastPieceGame Player.B "b1" "F" =
       handleMove lastPieceGame Player.B "b1" "F") :=
  ⟨by decide, out_of_turn_rejected lastPieceGame Player.B "b1" "F" (by decide)⟩

/-- Claim C10: when the command of the player to move makes `processMove` return `true`, the
other player is to move afterwards; when a command is answered `invalidMove` or `outOfTurn`,
`currentPlayer` is unchanged; and after `initializeGame` and any sequence of move commands
`currentPlayer` is `'A'` or `'B'`. -/
theorem turn_alternation (s : GameState) (player : Player) (pieceId move : String) :
    (s.currentPlayer = some player →
      (processMove s player pieceId move).outcome = Outcome.returned true →
      (handleMove s player pieceId move).state.currentPlayer = some (opponentOf player)) ∧
    ((⟨Recipient.sender, Message.invalidMove⟩ ∈ (handleMove s player pieceId move).events ∨
        ⟨Recipient.sender, Message.outOfTurn⟩ ∈ (handleMove s player pieceId move).events) →
      (handleMove s player pieceId move).state.currentPlayer = s.currentPlayer) ∧
    (∀ (a b : List Piece) (cmds : List MoveCommand),
      (runMoves (initializeGame a b).state cmds).state.currentPlayer = some Player.A ∨
      (runMoves (initializeGame a b).state cmds).state.currentPlayer = some Player.B) := by
  refine ⟨fun hcur hret => ?_, fun hans => ?_, fun a b cmds => ?_⟩
  · unfold handleMove handleMoveWith
    rw [if_pos hcur.symm, hret]
    dsimp only
    rw [processMove_currentPlayer, hcur]
    cases player <;> rfl
  · unfold handleMove handleMoveWith at hans ⊢
    by_cases hturn : some player = s.currentPlayer
    · rw [if_pos hturn] at hans ⊢
      cases hout : (processMove s player pieceId move).outcome with
      | returned v =>
        cases v with
        | false => exact processMove_currentPlayer s player pieceId move
        | true =>
          exfalso
          rw [hout] at hans
          dsimp only at hans
          have key : ∀ e : Event, e.recipient = Recipient.sender →
              e ∈ (processMove s player pieceId move).events ++
                [broadcastGameState
                  { (processMove s player pieceId move).state with
                    currentPlayer :=
                      if (processMove s player pieceId move).state.currentPlayer =
                        some Player.A then some Player.B else some Player.A }] → False := by
            intro e he hmem
            rcases List.mem_append.mp hmem with h1 | h1
            · have h2 := processMove_events s player pieceId move e h1
              rw [he] at h2
              exact absurd h2 (by decide)
            · rw [List.mem_singleton.mp h1] at he
              exact Recipient.noConfusion he
          rcases hans with h | h
          · exact key _ rfl h
          · exact key _ rfl h
      | threw => exact processMove_currentPlayer s player pieceId move
      | diverged => exact processMove_currentPlayer s player pieceId move
    · rw [if_neg hturn]
  · have h1 := runMoves_currentPlayer_ne_none cmds (initializeGame a b).state
      (by rw [initializeGame_currentPlayer]; simp)
    cases h2 : (runMoves (initializeGame a b).state cmds).state.currentPlayer with
    | none => exact absurd h2 h1
    | some p => cases p <;> simp

/-- An instance of `turn_alternation`: the accepted move of A in `staleCellGame` hands the
turn to B, and the command of B out of turn in `lastPieceGame` leaves A to move. -/
theorem turn_alternation_witness :
    staleCellGame.currentPlayer = some Player.A ∧
    (processMove staleCellGame Player.A "a1" "F").outcome = Outcome.returned true ∧
    (handleMove staleCellGame Player.A "a1" "F").state.currentPlayer =
      some (opponentOf Player.A) ∧
    (⟨Recipient.sender, Message.outOfTurn⟩ ∈
      (handleMove lastPieceGame Player.B "b1" "F").events) ∧
    (handleMove lastPieceGame Player.B "b1" "F").state.currentPlayer =
      lastPieceGame.currentPlayer :=
  ⟨by decide, by decide,
    (turn_alternation staleCellGame Player.A "a1" "F").1 (by decide) (by decide),
    by decide,
    (turn_alternation lastPieceGame Player.B "b1" "F").2.1 (Or.inr (by decide))⟩

/-! ## Resolver, board reads and paths: further facts -/

theorem movePlayerAPiece_isSome_iff (piece : Piece) (move : String) :
    (movePlayerAPiece piece move).isSome = true ↔
      ((piece.type = "P" ∨ piece.type = "H1") ∧ move ∈ straightCommands) ∨
      (piece.type = "H2" ∧ move ∈ diagonalCommands) := by
  unfold movePlayerAPiece straightCommands diagonalCommands
  split_ifs <;> simp_all

theorem movePlayerBPiece_isSome_iff (piece : Piece) (move : String) :
    (movePlayerBPiece piece move).isSome = true ↔
      ((piece.type = "P" ∨ piece.type = "H1") ∧ move ∈ straightCommands) ∨
      (piece.type = "H2" ∧ move ∈ diagonalCommands) := by
  unfold movePlayerBPiece straightCommands diagonalCommands
  split_ifs <;> simp_all

theorem movePlayerAPiece_displacement (piece : Piece) (move : String) (np : Position)
    (h : movePlayerAPiece piece move = some np) :
    (piece.type = "P" → oneAxisBy 1 (np.x - piece.position.x) (np.y - piece.position.y)) ∧
    (piece.type = "H1" → oneAxisBy 2 (np.x - piece.position.x) (np.y - piece.position.y)) ∧
    (piece.type = "H2" → (np.x - piece.position.x).natAbs = 2 ∧
      (np.y - piece.position.y).natAbs = 2) := by
  unfold movePlayerAPiece at h
  split_ifs at h
  all_goals first
    | exact Option.noConfusion h
    | (cases h; simp_all [oneAxisBy])

theorem movePlayerBPiece_displacement (piece : Piece) (move : String) (np : Position)
    (h : movePlayerBPiece piece move = some np) :
    (piece.type = "P" → oneAxisBy 1 (np.x - piece.position.x) (np.y - piece.position.y)) ∧
    (piece.type = "H1" → oneAxisBy 2 (np.x - piece.position.x) (np.y - piece.position.y)) ∧
    (piece.type = "H2" → (np.x - piece.position.x).natAbs = 2 ∧
      (np.y - piece.position.y).natAbs = 2) := by
  unfold movePlayerBPiece at h
  split_ifs at h
  all_goals first
    | exact Option.noConfusion h
    | (cases h; simp_all [oneAxisBy])

theorem resolveMove_congr (player : Player) (p q : Piece) (move : String)
    (ht : q.type = p.type) (hp : q.position = p.position) :
    resolveMove player q move = resolveMove player p move := by
  unfold resolveMove movePlayerAPiece movePlayerBPiece
  rw [ht, hp]

theorem commitMove_inBounds (s : GameState) (ps1 : Players) (player : Player)
    (pieceId : String) (piece : Piece) (x y newX newY : Int)
    (hlen : s.board.length = 5)
    (hxy : isPositionWithinBounds x y = true) (hnew : isPositionWithinBounds newX newY = true)
    (hin : InBounds ps1) :
    InBoundsState (commitMove s ps1 player pieceId piece x y newX newY).state ∧
    ∃ b, (commitMove s ps1 player pieceId piece x y newX newY).outcome = Outcome.returned b := by
  have hxy2 := (isPositionWithinBounds_iff _ _).mp hxy
  have hnew2 := (isPositionWithinBounds_iff _ _).mp hnew
  obtain ⟨b1, hw1⟩ := Board.write_isSome s.board x y Cell.null hxy2.2.2.1
    (by rw [hlen]; exact_mod_cast hxy2.2.2.2)
  have hlen1 : b1.length = 5 := by rw [Board.write_length _ _ _ _ _ hw1, hlen]
  obtain ⟨b2, hw2⟩ := Board.write_isSome b1 newX newY (Cell.id piece.id) hnew2.2.2.1
    (by rw [hlen1]; exact_mod_cast hnew2.2.2.2)
  have hlen2 : b2.length = 5 := by rw [Board.write_length _ _ _ _ _ hw2, hlen1]
  have hwf : ∀ st : GameState, st.board = b2 →
      st.players = some (movePiece ps1 player pieceId newX newY) → InBoundsState st := by
    intro st h1 h3
    exact ⟨by rw [h1]; exact hlen2, _, h3,
      inBounds_movePiece ps1 player pieceId newX newY hin hnew⟩
  unfold commitMove
  rw [hw1]
  dsimp only
  rw [hw2]
  dsimp only
  split_ifs
  · exact ⟨hwf _ rfl rfl, _, rfl⟩
  · exact ⟨hwf _ rfl rfl, _, rfl⟩

theorem processMove_inBounds (s : GameState) (player : Player) (pieceId move : String)
    (h : InBoundsState s) :
    InBoundsState (processMove s player pieceId move).state ∧
    ∃ b, (processMove s player pieceId move).outcome = Outcome.returned b := by
  obtain ⟨hlen, ps, hps, hin⟩ := h
  by_cases hg : passesGates ps player pieceId move = true
  · obtain ⟨piece, np, ps1, hf, hr, hb, hc⟩ := passesGates_inv ps player pieceId move hg
    rw [processMove_of_gates s ps player pieceId move piece np ps1 hps hf hr hb hc]
    have hsub := handleCaptures_sublists ps player piece _ _ _ _ ps1 true hc
    have hmem : piece ∈ ps.A.pieces ++ ps.B.pieces :=
      mem_rosters_of_get ps player piece (List.mem_of_find?_eq_some hf)
    exact commitMove_inBounds s ps1 player pieceId piece _ _ _ _ hlen (hin piece hmem) hb
      (inBounds_of_sublists ps ps1 hsub.1 hsub.2 hin)
  · have hg2 : passesGates ps player pieceId move = false := by simpa using hg
    rcases processMove_of_not_gates s ps player pieceId move hps hg2 with h1 | h1
    · rw [h1]
      exact ⟨⟨hlen, ps, hps, hin⟩, false, rfl⟩
    · obtain ⟨piece, np, ps1, _, _, hc, h2⟩ := h1
      have hsub := handleCaptures_sublists ps player piece _ _ _ _ ps1 false hc
      rw [h2]
      exact ⟨⟨hlen, ps1, rfl, inBounds_of_sublists ps ps1 hsub.1 hsub.2 hin⟩, false, rfl⟩

theorem handleMove_inBounds (s : GameState) (player : Player) (pieceId move : String)
    (h : InBoundsState s) :
    InBoundsState (handleMove s player pieceId move).state ∧
    (handleMove s player pieceId move).outcome = Outcome.returned () := by
  unfold handleMove handleMoveWith
  by_cases hturn : some player = s.currentPlayer
  · rw [if_pos hturn]
    obtain ⟨hwf, b, hb⟩ := processMove_inBounds s player pieceId move h
    rw [hb]
    cases b with
    | false => exact ⟨hwf, rfl⟩
    | true =>
      obtain ⟨hlen, ps, hps, hin⟩ := hwf
      exact ⟨⟨hlen, ps, hps, hin⟩, rfl⟩
  · rw [if_neg hturn]
    exact ⟨h, rfl⟩

theorem runMoves_inBounds (cmds : List MoveCommand) (s : GameState) (h : InBoundsState s) :
    InBoundsState (runMoves s cmds).state ∧
    (runMoves s cmds).outcome = Outcome.returned () := by
  induction cmds generalizing s with
  | nil => exact ⟨h, rfl⟩
  | cons c cs ih =>
    obtain ⟨hwf, hret⟩ := handleMove_inBounds s c.player c.pieceId c.move h
    rw [runMoves, hret]
    exact ih _ hwf

theorem Row.read_of_write (r : Row) (x x1 : Int) (v : Cell) :
    Row.read (Row.write r x v) x1 = if x1 = x then some v else Row.read r x1 := by
  induction r with
  | nil =>
    simp only [Row.write, Row.read]
    by_cases h : x = x1
    · simp [h]
    · have h3 : ¬ x1 = x := fun h2 => h h2.symm
      simp [h, h3]
  | cons kc r ih =>
    obtain ⟨k, c⟩ := kc
    by_cases hk : k = x
    · by_cases h : k = x1
      · have h3 : x1 = x := by rw [← h, hk]
        simp [Row.write, Row.read, hk, h3]
      · have h3 : ¬ x1 = x := by rw [← hk]; exact fun h2 => h h2.symm
        have h4 : ¬ x = x1 := fun h2 => h3 h2.symm
        simp [Row.write, Row.read, hk, h3, h4]
    · by_cases h : k = x1
      · have h3 : ¬ x1 = x := by rw [← h]; exact hk
        simp [Row.write, Row.read, hk, h, h3]
      · simp [Row.write, Row.read, hk, h, ih]

theorem Board.row_of_neg (b : Board) (y : Int) (h : y < 0) : Board.row b y = none := by
  unfold Board.row
  rw [if_pos h]

theorem Board.row_of_nonneg (b : Board) (y : Int) (h : ¬ y < 0) :
    Board.row b y = b.get? y.toNat := by
  unfold Board.row
  rw [if_neg h]

theorem Board.read_after_write (b b1 : Board) (x y x1 y1 : Int) (v : Cell)
    (h : Board.write b x y v = some b1) :
    Board.read b1 x1 y1 = if x1 = x ∧ y1 = y then some v else Board.read b x1 y1 := by
  unfold Board.write at h
  cases hrow : Board.row b y with
  | none =>
    rw [hrow] at h
    exact absurd h (by simp)
  | some r =>
    rw [hrow] at h
    simp only [Option.some.injEq] at h
    have hy0 : ¬ y < 0 := by
      intro hneg
      rw [Board.row_of_neg b y hneg] at hrow
      exact absurd hrow (by simp)
    have hget : b.get? y.toNat = some r := by
      rw [← Board.row_of_nonneg b y hy0]
      exact hrow
    have hlt : y.toNat < b.length := by
      rw [List.get?_eq_getElem?] at hget
      exact (List.getElem?_eq_some_iff.mp hget).1
    by_cases hneg1 : y1 < 0
    · have hne : ¬ (x1 = x ∧ y1 = y) := fun h2 => hy0 (h2.2 ▸ hneg1)
      rw [if_neg hne]
      unfold Board.read
      rw [Board.row_of_neg b1 y1 hneg1, Board.row_of_neg b y1 hneg1]
    · by_cases hyy : y1 = y
      · subst hyy
        have hrow1 : Board.row b1 y1 = some (Row.write r x v) := by
          rw [Board.row_of_nonneg b1 y1 hneg1, ← h, List.get?_eq_getElem?,
            List.getElem?_set_self hlt]
        unfold Board.read
        rw [hrow1, hrow]
        dsimp only
        rw [Row.read_of_write]
        by_cases hx : x1 = x
        · rw [if_pos hx, if_pos ⟨hx, rfl⟩]
        · rw [if_neg hx, if_neg (fun h2 => hx h2.1)]
      · have hne : y.toNat ≠ y1.toNat := by omega
        have hrow1 : Board.row b1 y1 = Board.row b y1 := by
          rw [Board.row_of_nonneg b1 y1 hneg1, Board.row_of_nonneg b y1 hneg1, ← h,
            List.get?_eq_getElem?, List.getElem?_set_ne hne, ← List.get?_eq_getElem?]
        rw [if_neg (fun h2 => hyy h2.2)]
        unfold Board.read
        rw [hrow1]

theorem placeRoster_read_other (l : List Piece) (b b1 : Board) (x y : Int)
    (h : placeRoster b l = Except.ok b1) (hxy : (⟨x, y⟩ : Position) ∉ positionsOf l) :
    Board.read b1 x y = Board.read b x y := by
  induction l generalizing b with
  | nil =>
    simp only [placeRoster, Except.ok.injEq] at h
    rw [h]
  | cons p rest ih =>
    have h2 : (⟨x, y⟩ : Position) ≠ p.position ∧ (⟨x, y⟩ : Position) ∉ positionsOf rest := by
      simpa [positionsOf] using hxy
    rw [placeRoster] at h
    cases hw : Board.write b p.position.x p.position.y (Cell.id p.id) with
    | none =>
      rw [hw] at h
      exact absurd h (by simp)
    | some b2 =>
      rw [hw] at h
      rw [ih b2 h h2.2, Board.read_after_write b b2 _ _ x y _ hw]
      have hne : ¬ (x = p.position.x ∧ y = p.position.y) := by
        intro h3
        apply h2.1
        rw [h3.1, h3.2]
      rw [if_neg hne]

theorem placeRoster_read_piece (l : List Piece) (b b1 : Board)
    (h : placeRoster b l = Except.ok b1) (hnd : (positionsOf l).Nodup) :
    ∀ p ∈ l, Board.read b1 p.position.x p.position.y = some (Cell.id p.id) := by
  induction l generalizing b with
  | nil => intro p hp; exact absurd hp (List.not_mem_nil _)
  | cons q rest ih =>
    have hnd2 : q.position ∉ positionsOf rest ∧ (positionsOf rest).Nodup := by
      simpa [positionsOf] using hnd
    rw [placeRoster] at h
    cases hw : Board.write b q.position.x q.position.y (Cell.id q.id) with
    | none =>
      rw [hw] at h
      exact absurd h (by simp)
    | some b2 =>
      rw [hw] at h
      intro p hp
      rcases List.mem_cons.mp hp with hp | hp
      · subst hp
        rw [placeRoster_read_other rest b2 b1 _ _ h hnd2.1,
          Board.read_after_write b b2 _ _ _ _ _ hw, if_pos ⟨rfl, rfl⟩]
      · exact ih b2 h hnd2.2 p hp

theorem emptyBoard_read (x y : Int) (hx0 : 0 ≤ x) (hx : x < 5) (hy0 : 0 ≤ y) (hy : y < 5) :
    Board.read emptyBoard x y = some Cell.null := by
  interval_cases x <;> interval_cases y <;> rfl

theorem commitMove_players (s : GameState) (ps1 : Players) (player : Player)
    (pieceId : String) (piece : Piece) (x y newX newY : Int) :
    (commitMove s ps1 player pieceId piece x y newX newY).state.players = some ps1 ∨
    (commitMove s ps1 player pieceId piece x y newX newY).state.players =
      some (movePiece ps1 player pieceId newX newY) := by
  unfold commitMove
  cases Board.write s.board x y Cell.null with
  | none => exact Or.inl rfl
  | some b1 =>
    dsimp only
    cases Board.write b1 newX newY (Cell.id piece.id) with
    | none => exact Or.inr rfl
    | some b2 =>
      dsimp only
      split_ifs
      · exact Or.inr rfl
      · exact Or.inr rfl

theorem setPosition_split (pieceId : String) (pos : Position) (l : List Piece) (piece : Piece)
    (hf : l.find? (fun p => decide (p.id = pieceId)) = some piece) :
    ∃ pre post, l = pre ++ piece :: post ∧ (∀ p ∈ pre, p.id ≠ pieceId) ∧
      piece.id = pieceId ∧
      setPosition pieceId pos l = pre ++ { piece with position := pos } :: post := by
  induction l with
  | nil => exact absurd hf (by simp)
  | cons q rest ih =>
    by_cases hq : q.id = pieceId
    · have hqp : q = piece := by
        rw [List.find?_cons_of_pos _ (by simpa using hq)] at hf
        exact Option.some.inj hf
      subst hqp
      refine ⟨[], rest, rfl, fun p hp => absurd hp (List.not_mem_nil _), hq, ?_⟩
      rw [setPosition, if_pos hq]
      rfl
    · rw [List.find?_cons_of_neg _ (by simpa using hq)] at hf
      obtain ⟨pre, post, h1, h2, h3, h4⟩ := ih hf
      refine ⟨q :: pre, post, by rw [h1]; rfl, ?_, h3, ?_⟩
      · intro p hp
        rcases List.mem_cons.mp hp with hp | hp
        · rw [hp]; exact hq
        · exact h2 p hp
      · rw [setPosition, if_neg hq, h4]
        rfl

theorem calculatePathLoop_at_destination (dx dy newX newY : Int) (fuel : Nat) :
    calculatePathLoop dx dy newX newY fuel newX newY = some [] := by
  cases fuel <;> simp [calculatePathLoop]

theorem calculatePathLoop_reach (a b : Int) (n : Nat)
    (ha : a = 0 ∨ a.natAbs = n) (hb : b = 0 ∨ b.natAbs = n) :
    ∀ (m k fuel : Nat), k + m = n → m ≤ fuel →
      ∃ p, calculatePathLoop (Int.sign a) (Int.sign b) a b fuel
        (k * Int.sign a) (k * Int.sign b) = some p := by
  intro m
  induction m with
  | zero =>
    intro k fuel hk _
    have hk2 : k = n := by omega
    have h1 : (k : Int) * Int.sign a = a := by
      rcases ha with h | h
      · rw [h]; simp
      · rw [hk2, ← h, mul_comm, Int.sign_mul_natAbs]
    have h2 : (k : Int) * Int.sign b = b := by
      rcases hb with h | h
      · rw [h]; simp
      · rw [hk2, ← h, mul_comm, Int.sign_mul_natAbs]
    rw [h1, h2]
    exact ⟨[], calculatePathLoop_at_destination _ _ _ _ _⟩
  | succ m ih =>
    intro k fuel hk hf
    obtain ⟨f, rfl⟩ : ∃ f, fuel = f + 1 := ⟨fuel - 1, by omega⟩
    obtain ⟨q, hq⟩ := ih (k + 1) f (by omega) (by omega)
    rw [calculatePathLoop]
    split_ifs
    · have h3 : ((k : Int) * Int.sign a + Int.sign a) = ((k + 1 : Nat) : Int) * Int.sign a := by
        push_cast; ring
      have h4 : ((k : Int) * Int.sign b + Int.sign b) = ((k + 1 : Nat) : Int) * Int.sign b := by
        push_cast; ring
      rw [h3, h4, hq]
      exact ⟨_, rfl⟩
    · exact ⟨_, rfl⟩

theorem calculatePath_origin_terminates (a b : Int)
    (h : a = 0 ∨ b = 0 ∨ a.natAbs = b.natAbs) :
    ∃ p, calculatePath 0 0 a b = some p := by
  unfold calculatePath
  simp only [sub_zero, zero_add]
  by_cases hz : a = 0 ∧ b = 0
  · rw [hz.1, hz.2]
    exact ⟨[], by decide⟩
  · have hn : ∃ n : Nat, 1 ≤ n ∧ (a = 0 ∨ a.natAbs = n) ∧ (b = 0 ∨ b.natAbs = n) ∧
        n ≤ a.natAbs + b.natAbs := by
      by_cases ha : a = 0
      · have hb : b ≠ 0 := fun hb => hz ⟨ha, hb⟩
        exact ⟨b.natAbs, Int.natAbs_pos.mpr hb, Or.inl ha, Or.inr rfl, by omega⟩
      · refine ⟨a.natAbs, Int.natAbs_pos.mpr ha, Or.inr rfl, ?_, by omega⟩
        rcases h with h | h | h
        · exact absurd h ha
        · exact Or.inl h
        · exact Or.inr h.symm
    obtain ⟨n, hn1, hna, hnb, hle⟩ := hn
    have := calculatePathLoop_reach a b n hna hnb (n - 1) 1 (a.natAbs + b.natAbs)
      (by omega) (by omega)
    simpa using this

theorem calculatePath_delta (x y newX newY : Int) :
    calculatePath x y newX newY =
      (calculatePath 0 0 (newX - x) (newY - y)).map (List.map (shiftBy x y)) := by
  have h := calculatePath_shift x y (newX - x) (newY - y)
  rw [add_sub_cancel, add_sub_cancel] at h
  exact h

theorem calculatePath_of_oneAxisBy_one (dx dy : Int) (h : oneAxisBy 1 dx dy) :
    calculatePath 0 0 dx dy = some [] := by
  unfold oneAxisBy at h
  have h2 : (dx = 1 ∨ dx = -1) ∧ dy = 0 ∨ dx = 0 ∧ (dy = 1 ∨ dy = -1) := by omega
  rcases h2 with ⟨h3 | h3, h4⟩ | ⟨h3, h4 | h4⟩ <;> subst h3 <;> subst h4 <;> decide

theorem calculatePath_of_hero (dx dy : Int)
    (h : oneAxisBy 2 dx dy ∨ (dx.natAbs = 2 ∧ dy.natAbs = 2)) :
    calculatePath 0 0 dx dy = some [⟨dx / 2, dy / 2⟩] := by
  unfold oneAxisBy at h
  have h2 : (dx = 2 ∨ dx = -2 ∨ dx = 0) ∧ (dy = 2 ∨ dy = -2 ∨ dy = 0) ∧
      ¬ (dx = 0 ∧ dy = 0) := by omega
  obtain ⟨h3 | h3 | h3, h4 | h4 | h4, h5⟩ := h2 <;> subst h3 <;> subst h4 <;>
    first
      | decide
      | exact absurd ⟨rfl, rfl⟩ h5

theorem calculatePathLoop_some (dx dy newX newY : Int) (fuel : Nat) :
    ∀ (cx cy : Int) (p : List Position),
      calculatePathLoop dx dy newX newY fuel cx cy = some p →
      (cx + p.length * dx = newX ∧ cy + p.length * dy = newY) ∧
      ((cx = newX ∧ cy = newY) → p = []) ∧
      ∀ f, p.length ≤ f → calculatePathLoop dx dy newX newY f cx cy = some p := by
  induction fuel with
  | zero =>
    intro cx cy p h
    rw [calculatePathLoop] at h
    split_ifs at h with hc
    have hc2 : cx = newX ∧ cy = newY := by
      constructor
      · by_contra h1; exact hc (Or.inl h1)
      · by_contra h1; exact hc (Or.inr h1)
    simp only [Option.some.injEq] at h
    subst h
    refine ⟨by simpa using hc2, fun _ => rfl, fun f _ => ?_⟩
    rw [hc2.1, hc2.2]
    exact calculatePathLoop_at_destination _ _ _ _ _
  | succ n ih =>
    intro cx cy p h
    rw [calculatePathLoop] at h
    split_ifs at h with hc
    · cases hq : calculatePathLoop dx dy newX newY n (cx + dx) (cy + dy) with
      | none =>
        rw [hq] at h
        exact absurd h (by simp)
      | some q =>
        rw [hq] at h
        simp only [Option.map_some', Option.some.injEq] at h
        subst h
        obtain ⟨h1, _, h3⟩ := ih _ _ q hq
        refine ⟨?_, fun h4 => ?_, fun f hf => ?_⟩
        · simp only [List.length_cons]
          push_cast
          constructor
          · rw [← h1.1]; ring
          · rw [← h1.2]; ring
        · exact absurd h4 (by
            intro h5
            rcases hc with h6 | h6
            · exact h6 h5.1
            · exact h6 h5.2)
        · obtain ⟨g, rfl⟩ : ∃ g, f = g + 1 := ⟨f - 1, by
            simp only [List.length_cons] at hf
            omega⟩
          rw [calculatePathLoop, if_pos hc, h3 g (by
            simp only [List.length_cons] at hf
            omega)]
          rfl
    · have hc2 : cx = newX ∧ cy = newY := by
        constructor
        · by_contra h1; exact hc (Or.inl h1)
        · by_contra h1; exact hc (Or.inr h1)
      simp only [Option.some.injEq] at h
      subst h
      refine ⟨by simpa using hc2, fun _ => rfl, fun f _ => ?_⟩
      rw [hc2.1, hc2.2]
      exact calculatePathLoop_at_destination _ _ _ _ _

theorem natAbs_of_mul_sign (a : Int) (k : Nat) (ha : a ≠ 0) (h : (k : Int) * Int.sign a = a) :
    k = a.natAbs := by
  have h2 := congrArg Int.natAbs h
  rw [Int.natAbs_mul, Int.natAbs_sign_of_nonzero ha, Int.natAbs_ofNat, mul_one] at h2
  exact h2

/-- The fuel given to the loop in `calculatePath` is enough: whenever the loop of lines 199
to 203 ends after some number of iterations, `calculatePath` yields the same path, so that
`none` stands for a loop that ends after no number of iterations. -/
theorem calculatePath_fuel_adequate (x y newX newY : Int) (fuel : Nat) (p : List Position)
    (h : calculatePathLoop (Int.sign (newX - x)) (Int.sign (newY - y)) newX newY fuel
      (x + Int.sign (newX - x)) (y + Int.sign (newY - y)) = some p) :
    calculatePath x y newX newY = some p := by
  obtain ⟨h1, h2, h3⟩ := calculatePathLoop_some _ _ _ _ fuel _ _ p h
  unfold calculatePath
  apply h3
  by_cases ha : newX - x = 0
  · by_cases hb : newY - y = 0
    · have hp : p = [] := by
        apply h2
        rw [ha, hb]
        simp only [Int.sign_zero, add_zero]
        constructor <;> omega
      rw [hp]
      exact Nat.zero_le _
    · have h4 : ((p.length + 1 : Nat) : Int) * Int.sign (newY - y) = newY - y := by
        push_cast
        have := h1.2
        linarith
      have := natAbs_of_mul_sign _ _ hb h4
      omega
  · have h4 : ((p.length + 1 : Nat) : Int) * Int.sign (newX - x) = newX - x := by
      push_cast
      have := h1.1
      linarith
    have := natAbs_of_mul_sign _ _ ha h4
    omega

/-! ## Claims C11 to C20 -/

/-- Claim C11: for every Pawn position (x, y) in the range where the source's arithmetic is
exact, the resolver of player A with command `F` yields (x, y + 1) and the resolver of
player B yields (x, y - 1); a Pawn at (2,2) ends at (2,3) for A and at (2,1) for B, in the
resolver and after the move is handled. -/
theorem pawn_forward_asymmetry :
    (∀ (id : String) (x y : Int), ExactPosition ⟨x, y⟩ →
      movePlayerAPiece ⟨id, "P", ⟨x, y⟩⟩ "F" = some ⟨x, y + 1⟩ ∧
      movePlayerBPiece ⟨id, "P", ⟨x, y⟩⟩ "F" = some ⟨x, y - 1⟩) ∧
    movePlayerAPiece ⟨"p", "P", ⟨2, 2⟩⟩ "F" = some ⟨2, 3⟩ ∧
    movePlayerBPiece ⟨"p", "P", ⟨2, 2⟩⟩ "F" = some ⟨2, 1⟩ ∧
    (handleMove (initializeGame [⟨"p", "P", ⟨2, 2⟩⟩] [⟨"q", "P", ⟨4, 4⟩⟩]).state
        Player.A "p" "F").state.players =
      some ⟨⟨[⟨"p", "P", ⟨2, 3⟩⟩], []⟩, ⟨[⟨"q", "P", ⟨4, 4⟩⟩], []⟩⟩ ∧
    (runMoves (initializeGame [⟨"q", "P", ⟨0, 0⟩⟩] [⟨"p", "P", ⟨2, 2⟩⟩]).state
        [⟨Player.A, "q", "F"⟩, ⟨Player.B, "p", "F"⟩]).state.players =
      some ⟨⟨[⟨"q", "P", ⟨0, 1⟩⟩], []⟩, ⟨[⟨"p", "P", ⟨2, 1⟩⟩], []⟩⟩ := by
  refine ⟨fun id x y _ => ⟨?_, ?_⟩, by decide, by decide, by decide, by decide⟩
  · simp [movePlayerAPiece]
  · simp [movePlayerBPiece]

/-- An instance of `pawn_forward_asymmetry`: a Pawn at (3,1), inside the exact range. -/
theorem pawn_forward_asymmetry_witness :
    ExactPosition ⟨3, 1⟩ ∧
    movePlayerAPiece ⟨"p", "P", ⟨3, 1⟩⟩ "F" = some ⟨3, 1 + 1⟩ ∧
    movePlayerBPiece ⟨"p", "P", ⟨3, 1⟩⟩ "F" = some ⟨3, 1 - 1⟩ :=
  ⟨by decide, pawn_forward_asymmetry.1 "p" 3 1 (by decide)⟩

/-- Claim C12 fails at every forward command: player A's Pawn at (2,2) sent forward is
resolved to (2,3), a larger y, although the comment on that line says that forward decreases
y for player A; for every position the forward commands of A increase y and those of B
decrease it, the opposite of what the comments say. -/
theorem forward_direction_opposite_to_comments :
    movePlayerAPiece ⟨"p", "P", ⟨2, 2⟩⟩ "F" = some ⟨2, 3⟩ ∧
    movePlayerBPiece ⟨"p", "P", ⟨2, 2⟩⟩ "F" = some ⟨2, 1⟩ ∧
    movePlayerAPiece ⟨"p", "P", ⟨2, 2⟩⟩ "B" = some ⟨2, 1⟩ ∧
    movePlayerBPiece ⟨"p", "P", ⟨2, 2⟩⟩ "B" = some ⟨2, 3⟩ ∧
    (∀ (id : String) (x y : Int),
      movePlayerAPiece ⟨id, "P", ⟨x, y⟩⟩ "F" = some ⟨x, y + 1⟩ ∧
      movePlayerAPiece ⟨id, "H1", ⟨x, y⟩⟩ "F" = some ⟨x, y + 2⟩ ∧
      movePlayerAPiece ⟨id, "H2", ⟨x, y⟩⟩ "FL" = some ⟨x - 2, y + 2⟩ ∧
      movePlayerAPiece ⟨id, "H2", ⟨x, y⟩⟩ "FR" = some ⟨x + 2, y + 2⟩ ∧
      movePlayerBPiece ⟨id, "P", ⟨x, y⟩⟩ "F" = some ⟨x, y - 1⟩ ∧
      movePlayerBPiece ⟨id, "H1", ⟨x, y⟩⟩ "F" = some ⟨x, y - 2⟩ ∧
      movePlayerBPiece ⟨id, "H2", ⟨x, y⟩⟩ "FL" = some ⟨x - 2, y - 2⟩ ∧
      movePlayerBPiece ⟨id, "H2", ⟨x, y⟩⟩ "FR" = some ⟨x + 2, y - 2⟩) := by
  refine ⟨by decide, by decide, by decide, by decide, fun id x y => ?_⟩
  simp [movePlayerAPiece, movePlayerBPiece]

/-- Claim C13: for both players the resolver returns a position exactly when the type is P
or H1 and the command is one of L, R, F, B, or the type is H2 and the command is one of FL,
FR, BL, BR, and `null` otherwise; a returned position differs from the piece's position on
exactly one axis by 1 for P, on exactly one axis by 2 for H1, on both axes by 2 for H2,
when the piece stands in the range where the source's arithmetic is exact; and the result is
the same for two pieces of the same type and position: the resolver takes the
piece and the command only, not the board. -/
theorem resolver_matches_offset_table (player : Player) (piece : Piece) (move : String) :
    ((resolveMove player piece move).isSome = true ↔
      ((piece.type = "P" ∨ piece.type = "H1") ∧ move ∈ straightCommands) ∨
      (piece.type = "H2" ∧ move ∈ diagonalCommands)) ∧
    (¬ (((piece.type = "P" ∨ piece.type = "H1") ∧ move ∈ straightCommands) ∨
        (piece.type = "H2" ∧ move ∈ diagonalCommands)) →
      resolveMove player piece move = none) ∧
    (∀ np, ExactPosition piece.position → resolveMove player piece move = some np →
      (piece.type = "P" →
        oneAxisBy 1 (np.x - piece.position.x) (np.y - piece.position.y)) ∧
      (piece.type = "H1" →
        oneAxisBy 2 (np.x - piece.position.x) (np.y - piece.position.y)) ∧
      (piece.type = "H2" → (np.x - piece.position.x).natAbs = 2 ∧
        (np.y - piece.position.y).natAbs = 2)) ∧
    (∀ q : Piece, q.type = piece.type → q.position = piece.position →
      resolveMove player q move = resolveMove player piece move) := by
  have hiff : (resolveMove player piece move).isSome = true ↔
      ((piece.type = "P" ∨ piece.type = "H1") ∧ move ∈ straightCommands) ∨
      (piece.type = "H2" ∧ move ∈ diagonalCommands) := by
    cases player
    · exact movePlayerAPiece_isSome_iff piece move
    · exact movePlayerBPiece_isSome_iff piece move
  refine ⟨hiff, fun hn => ?_, fun np _ h => ?_,
    fun q ht hp => resolveMove_congr player piece q move ht hp⟩
  · cases hr : resolveMove player piece move with
    | none => rfl
    | some np =>
      exfalso
      apply hn
      apply hiff.mp
      rw [hr]
      rfl
  · cases player
    · exact movePlayerAPiece_displacement piece move np h
    · exact movePlayerBPiece_displacement piece move np h

/-- An instance of `resolver_matches_offset_table`: B's Hero2 at (2,2) with command `FL`
goes to (0,0), and a Pawn has no `FL`. -/
theorem resolver_matches_offset_table_witness :
    ExactPosition ⟨2, 2⟩ ∧
    resolveMove Player.B ⟨"h", "H2", ⟨2, 2⟩⟩ "FL" = some ⟨0, 0⟩ ∧
    ((0 - 2 : Int).natAbs = 2 ∧ (0 - 2 : Int).natAbs = 2) ∧
    resolveMove Player.A ⟨"p", "P", ⟨2, 2⟩⟩ "FL" = none :=
  ⟨by decide, by decide,
    ((resolver_matches_offset_table Player.B ⟨"h", "H2", ⟨2, 2⟩⟩ "FL").2.2.1 ⟨0, 0⟩
      (by decide) (by decide)).2.2 rfl,
    (resolver_matches_offset_table Player.A ⟨"p", "P", ⟨2, 2⟩⟩ "FL").2.1 (by decide)⟩

/-- Claim C14: for every piece and command, `movePlayerBPiece` returns `null` exactly when
`movePlayerAPiece` does, and otherwise, when the piece stands in the range where the
source's arithmetic is exact, the two results have the same x and opposite displacements
in y. -/
theorem resolvers_mirror_in_y (piece : Piece) (move : String) :
    (movePlayerBPiece piece move = none ↔ movePlayerAPiece piece move = none) ∧
    (ExactPosition piece.position →
      movePlayerBPiece piece move =
        (movePlayerAPiece piece move).map
          (fun a => ⟨a.x, piece.position.y - (a.y - piece.position.y)⟩)) := by
  have h : (movePlayerBPiece piece move = none ↔ movePlayerAPiece piece move = none) ∧
      movePlayerBPiece piece move =
        (movePlayerAPiece piece move).map
          (fun a => ⟨a.x, piece.position.y - (a.y - piece.position.y)⟩) := by
    unfold movePlayerAPiece movePlayerBPiece
    split_ifs <;> simp
  exact ⟨h.1, fun _ => h.2⟩

/-- An instance of `resolvers_mirror_in_y`: a Hero2 at (2,2) with command `FL` goes to (0,4)
for A and to (0,0) for B. -/
theorem resolvers_mirror_in_y_witness :
    ExactPosition ⟨2, 2⟩ ∧
    movePlayerAPiece ⟨"h", "H2", ⟨2, 2⟩⟩ "FL" = some ⟨0, 4⟩ ∧
    movePlayerBPiece ⟨"h", "H2", ⟨2, 2⟩⟩ "FL" =
      (movePlayerAPiece ⟨"h", "H2", ⟨2, 2⟩⟩ "FL").map (fun a => ⟨a.x, 2 - (a.y - 2)⟩) :=
  ⟨by decide, by decide,
    (resolvers_mirror_in_y ⟨"h", "H2", ⟨2, 2⟩⟩ "FL").2 (by decide)⟩

/-- Claim C15: when the resolved destination of the piece found for the command lies
outside the grid, `processMove` returns `false`, sends nothing and leaves the board, both
rosters and `currentPlayer` unchanged; and from an initialization with every piece inside
the grid, every sequence of move commands is handled to the end and leaves every roster
position inside the grid. -/
theorem out_of_bounds_rejected :
    (∀ (s : GameState) (ps : Players) (player : Player) (pieceId move : String)
        (piece : Piece) (np : Position),
      s.players = some ps →
      (ps.get player).pieces.find? (fun p => decide (p.id = pieceId)) = some piece →
      resolveMove player piece move = some np →
      ¬ (0 ≤ np.x ∧ np.x < 5 ∧ 0 ≤ np.y ∧ np.y < 5) →
      processMove s player pieceId move =
        { state := s, outcome := Outcome.returned false, events := [] }) ∧
    (∀ (a b : List Piece) (cmds : List MoveCommand),
      (∀ p ∈ a ++ b, 0 ≤ p.position.x ∧ p.position.x < 5 ∧
        0 ≤ p.position.y ∧ p.position.y < 5) →
      (runMoves (initializeGame a b).state cmds).outcome = Outcome.returned () ∧
      ∃ ps, (runMoves (initializeGame a b).state cmds).state.players = some ps ∧
        ∀ p ∈ ps.A.pieces ++ ps.B.pieces, 0 ≤ p.position.x ∧ p.position.x < 5 ∧
          0 ≤ p.position.y ∧ p.position.y < 5) := by
  constructor
  · intro s ps player pieceId move piece np hps hf hr hout
    have hb : isPositionWithinBounds np.x np.y = false := by
      cases hb : isPositionWithinBounds np.x np.y with
      | false => rfl
      | true => exact absurd ((isPositionWithinBounds_iff _ _).mp hb) hout
    simp only [processMove, hps, hf, hr, hb, if_true]
  · intro a b cmds hin
    have hin2 : ∀ p ∈ a ++ b, isPositionWithinBounds p.position.x p.position.y = true :=
      fun p hp => (isPositionWithinBounds_iff _ _).mpr (hin p hp)
    obtain ⟨_, h2, h3, _⟩ := initializeGame_returns a b hin2
    obtain ⟨⟨_, ps, hps, hinb⟩, hret⟩ :=
      runMoves_inBounds cmds (initializeGame a b).state ⟨h2, _, h3, hin2⟩
    exact ⟨hret, ps, hps, fun p hp => (isPositionWithinBounds_iff _ _).mp (hinb p hp)⟩

/-- An instance of `out_of_bounds_rejected`: in `lastPieceGame` the pawn a1 of A at (0,0)
sent to the left resolves to (-1,0); and the rosters of `lastPieceGame` with two commands. -/
theorem out_of_bounds_rejected_witness :
    resolveMove Player.A ⟨"a1", "P", ⟨0, 0⟩⟩ "L" = some ⟨-1, 0⟩ ∧
    processMove lastPieceGame Player.A "a1" "L" =
      { state := lastPieceGame, outcome := Outcome.returned false, events := [] } ∧
    ((runMoves (initializeGame [⟨"a1", "P", ⟨0, 0⟩⟩] [⟨"b1", "P", ⟨0, 1⟩⟩]).state
        [⟨Player.A, "a1", "L"⟩, ⟨Player.A, "a1", "R"⟩]).outcome = Outcome.returned () ∧
      ∃ ps, (runMoves (initializeGame [⟨"a1", "P", ⟨0, 0⟩⟩] [⟨"b1", "P", ⟨0, 1⟩⟩]).state
          [⟨Player.A, "a1", "L"⟩, ⟨Player.A, "a1", "R"⟩]).state.players = some ps ∧
        ∀ p ∈ ps.A.pieces ++ ps.B.pieces, 0 ≤ p.position.x ∧ p.position.x < 5 ∧
          0 ≤ p.position.y ∧ p.position.y < 5) :=
  ⟨by decide,
    out_of_bounds_rejected.1 lastPieceGame
      ⟨⟨[⟨"a1", "P", ⟨0, 0⟩⟩], []⟩, ⟨[⟨"b1", "P", ⟨0, 1⟩⟩], []⟩⟩ Player.A "a1" "L"
      ⟨"a1", "P", ⟨0, 0⟩⟩ ⟨-1, 0⟩ (by decide) (by decide) (by decide) (by decide),
    out_of_bounds_rejected.2 [⟨"a1", "P", ⟨0, 0⟩⟩] [⟨"b1", "P", ⟨0, 1⟩⟩]
      [⟨Player.A, "a1", "L"⟩, ⟨Player.A, "a1", "R"⟩] (by decide)⟩

/-- Claim C16: when no piece of the player's roster has the given id, or the resolver yields
no position for the piece found and the command, `processMove` returns `false`, sends
nothing and leaves the board, both rosters and `currentPlayer` unchanged. -/
theorem invalid_command_rejected (s : GameState) (ps : Players) (player : Player)
    (pieceId move : String) (hps : s.players = some ps)
    (h : (∀ p ∈ (ps.get player).pieces, p.id ≠ pieceId) ∨
      ∃ piece, (ps.get player).pieces.find? (fun p => decide (p.id = pieceId)) = some piece ∧
        resolveMove player piece move = none) :
    processMove s player pieceId move =
      { state := s, outcome := Outcome.returned false, events := [] } := by
  rcases h with h | ⟨piece, hf, hr⟩
  · have hf : (ps.get player).pieces.find? (fun p => decide (p.id = pieceId)) = none := by
      rw [List.find?_eq_none]
      intro p hp
      simpa using h p hp
    simp only [processMove, hps, hf]
  · simp only [processMove, hps, hf, hr]

/-- An instance of `invalid_command_rejected`: in `lastPieceGame` the Pawn a1 has no command
`FL`. -/
theorem invalid_command_rejected_witness :
    lastPieceGame.players =
      some ⟨⟨[⟨"a1", "P", ⟨0, 0⟩⟩], []⟩, ⟨[⟨"b1", "P", ⟨0, 1⟩⟩], []⟩⟩ ∧
    resolveMove Player.A ⟨"a1", "P", ⟨0, 0⟩⟩ "FL" = none ∧
    processMove lastPieceGame Player.A "a1" "FL" =
      { state := lastPieceGame, outcome := Outcome.returned false, events := [] } :=
  ⟨by decide, by decide,
    invalid_command_rejected lastPieceGame
      ⟨⟨[⟨"a1", "P", ⟨0, 0⟩⟩], []⟩, ⟨[⟨"b1", "P", ⟨0, 1⟩⟩], []⟩⟩ Player.A "a1" "FL"
      (by decide) (Or.inr ⟨⟨"a1", "P", ⟨0, 0⟩⟩, by decide, by decide⟩)⟩

/-- Claim C17: for all rosters whose positions are inside the grid and pairwise distinct,
`initializeGame` returns, `currentPlayer` is `'A'`, the two rosters are the supplied
sequences with empty `eliminated` lists, the board has five rows, the cell of every supplied
piece holds its id and every other cell of the 5x5 grid holds `null`.  The function takes no
state: line 17 overwrites `gameState` whatever it was. -/
theorem initializeGame_postcondition (a b : List Piece)
    (hin : ∀ p ∈ a ++ b, 0 ≤ p.position.x ∧ p.position.x < 5 ∧
      0 ≤ p.position.y ∧ p.position.y < 5)
    (hnd : (positionsOf (a ++ b)).Nodup) :
    (initializeGame a b).outcome = Outcome.returned () ∧
    (initializeGame a b).state.currentPlayer = some Player.A ∧
    (initializeGame a b).state.players =
      some { A := { pieces := a, eliminated := [] }, B := { pieces := b, eliminated := [] } } ∧
    (initializeGame a b).state.board.length = 5 ∧
    (∀ p ∈ a ++ b,
      Board.read (initializeGame a b).state.board p.position.x p.position.y =
        some (Cell.id p.id)) ∧
    (∀ x y : Int, 0 ≤ x → x < 5 → 0 ≤ y → y < 5 →
      (∀ p ∈ a ++ b, p.position ≠ ⟨x, y⟩) →
      Board.read (initializeGame a b).state.board x y = some Cell.null) := by
  have hin2 : ∀ p ∈ a ++ b, isPositionWithinBounds p.position.x p.position.y = true :=
    fun p hp => (isPositionWithinBounds_iff _ _).mpr (hin p hp)
  obtain ⟨b1, h1, hl1⟩ := placeRoster_ok a emptyBoard rfl
    (fun p hp => hin2 p (List.mem_append_left _ hp))
  obtain ⟨b2, h2, hl2⟩ := placeRoster_ok b b1 hl1
    (fun p hp => hin2 p (List.mem_append_right _ hp))
  have h3 : initializeGame a b =
      { state := { board := b2,
                   players := some { A := { pieces := a, eliminated := [] },
                                     B := { pieces := b, eliminated := [] } },
                   currentPlayer := some Player.A },
        outcome := Outcome.returned (), events := [] } := by
    simp only [initializeGame, placePiecesOnBoard, h1, h2]
  rw [positionsOf_append] at hnd
  have hnd3 := List.nodup_append.mp hnd
  rw [h3]
  refine ⟨rfl, rfl, rfl, hl2, fun p hp => ?_, fun x y hx0 hx hy0 hy hfree => ?_⟩
  · show Board.read b2 p.position.x p.position.y = some (Cell.id p.id)
    rcases List.mem_append.mp hp with hp | hp
    · have hnot : (⟨p.position.x, p.position.y⟩ : Position) ∉ positionsOf b := by
        intro hmem
        exact hnd3.2.2 (List.mem_map_of_mem _ hp) hmem
      rw [placeRoster_read_other b b1 b2 _ _ h2 hnot]
      exact placeRoster_read_piece a emptyBoard b1 h1 hnd3.1 p hp
    · exact placeRoster_read_piece b b1 b2 h2 hnd3.2.1 p hp
  · show Board.read b2 x y = some Cell.null
    have hnotin : ∀ l : List Piece, (∀ p ∈ l, p ∈ a ++ b) →
        (⟨x, y⟩ : Position) ∉ positionsOf l := by
      intro l hl hmem
      obtain ⟨p, hp, hpe⟩ := List.mem_map.mp hmem
      exact hfree p (hl p hp) hpe
    rw [placeRoster_read_other b b1 b2 x y h2
        (hnotin b (fun p hp => List.mem_append_right _ hp)),
      placeRoster_read_other a emptyBoard b1 x y h1
        (hnotin a (fun p hp => List.mem_append_left _ hp))]
    exact emptyBoard_read x y hx0 hx hy0 hy

/-- An instance of `initializeGame_postcondition`: the rosters of `lastPieceGame`. -/
theorem initializeGame_postcondition_witness :
    (∀ p ∈ ([⟨"a1", "P", ⟨0, 0⟩⟩] : List Piece) ++ [⟨"b1", "P", ⟨0, 1⟩⟩],
      0 ≤ p.position.x ∧ p.position.x < 5 ∧ 0 ≤ p.position.y ∧ p.position.y < 5) ∧
    (positionsOf (([⟨"a1", "P", ⟨0, 0⟩⟩] : List Piece) ++ [⟨"b1", "P", ⟨0, 1⟩⟩])).Nodup ∧
    ((initializeGame [⟨"a1", "P", ⟨0, 0⟩⟩] [⟨"b1", "P", ⟨0, 1⟩⟩]).outcome =
        Outcome.returned () ∧
      (initializeGame [⟨"a1", "P", ⟨0, 0⟩⟩] [⟨"b1", "P", ⟨0, 1⟩⟩]).state.currentPlayer =
        some Player.A ∧
      (initializeGame [⟨"a1", "P", ⟨0, 0⟩⟩] [⟨"b1", "P", ⟨0, 1⟩⟩]).state.players =
        some { A := { pieces := [⟨"a1", "P", ⟨0, 0⟩⟩], eliminated := [] },
               B := { pieces := [⟨"b1", "P", ⟨0, 1⟩⟩], eliminated := [] } } ∧
      (initializeGame [⟨"a1", "P", ⟨0, 0⟩⟩] [⟨"b1", "P", ⟨0, 1⟩⟩]).state.board.length = 5 ∧
      (∀ p ∈ ([⟨"a1", "P", ⟨0, 0⟩⟩] : List Piece) ++ [⟨"b1", "P", ⟨0, 1⟩⟩],
        Board.read (initializeGame [⟨"a1", "P", ⟨0, 0⟩⟩] [⟨"b1", "P", ⟨0, 1⟩⟩]).state.board
          p.position.x p.position.y = some (Cell.id p.id)) ∧
      (∀ x y : Int, 0 ≤ x → x < 5 → 0 ≤ y → y < 5 →
        (∀ p ∈ ([⟨"a1", "P", ⟨0, 0⟩⟩] : List Piece) ++ [⟨"b1", "P", ⟨0, 1⟩⟩],
          p.position ≠ ⟨x, y⟩) →
        Board.read (initializeGame [⟨"a1", "P", ⟨0, 0⟩⟩] [⟨"b1", "P", ⟨0, 1⟩⟩]).state.board
          x y = some Cell.null)) :=
  ⟨by decide, by decide,
    initializeGame_postcondition [⟨"a1", "P", ⟨0, 0⟩⟩] [⟨"b1", "P", ⟨0, 1⟩⟩]
      (by decide) (by decide)⟩

/-- Claim C18: after any call of `processMove`, accepted or rejected, the roster of the
mover is either untouched or differs from the one before only in the position of the piece
selected by the id (the first piece with that id): same pieces, same order; and the roster of
the opponent is the one before with pieces removed only. -/
theorem no_self_capture (s : GameState) (ps : Players) (player : Player)
    (pieceId move : String) (hps : s.players = some ps) :
    ∃ ps2, (processMove s player pieceId move).state.players = some ps2 ∧
      ((ps2.get player).pieces = (ps.get player).pieces ∨
        ∃ pre piece post np,
          (ps.get player).pieces = pre ++ piece :: post ∧
          (∀ p ∈ pre, p.id ≠ pieceId) ∧ piece.id = pieceId ∧
          (ps2.get player).pieces = pre ++ { piece with position := np } :: post) ∧
      List.Sublist (ps2.get (opponentOf player)).pieces
        (ps.get (opponentOf player)).pieces := by
  by_cases hg : passesGates ps player pieceId move = true
  · obtain ⟨piece, np, ps1, hf, hr, hb, hc⟩ := passesGates_inv ps player pieceId move hg
    rw [processMove_of_gates s ps player pieceId move piece np ps1 hps hf hr hb hc]
    have hspec := handleCaptures_spec ps player piece _ _ _ _ ps1 true hc
    rcases commitMove_players s ps1 player pieceId piece piece.position.x piece.position.y
      np.x np.y with h1 | h1
    · exact ⟨ps1, h1, Or.inl hspec.1, hspec.2.1⟩
    · refine ⟨_, h1, Or.inr ?_, ?_⟩
      · obtain ⟨pre, post, h2, h3, h4, h5⟩ :=
          setPosition_split pieceId ⟨np.x, np.y⟩ (ps.get player).pieces piece hf
        refine ⟨pre, piece, post, ⟨np.x, np.y⟩, h2, h3, h4, ?_⟩
        unfold movePiece
        rw [get_setPieces_self, hspec.1, h5]
      · unfold movePiece
        rw [get_setPieces_other]
        exact hspec.2.1
  · have hg2 : passesGates ps player pieceId move = false := by simpa using hg
    rcases processMove_of_not_gates s ps player pieceId move hps hg2 with h1 | h1
    · rw [h1]
      exact ⟨ps, hps, Or.inl rfl, List.Sublist.refl _⟩
    · obtain ⟨piece, np, ps1, _, _, hc, h2⟩ := h1
      have hspec := handleCaptures_spec ps player piece _ _ _ _ ps1 false hc
      rw [h2]
      exact ⟨ps1, rfl, Or.inl hspec.1, hspec.2.1⟩

/-- An instance of `no_self_capture`: the rejected move of B's Hero in `friendlyFireGame`,
which removes a piece of A and none of B. -/
theorem no_self_capture_witness :
    friendlyFireGame.players =
        some ⟨⟨[⟨"a1", "P", ⟨0, 3⟩⟩, ⟨"a2", "P", ⟨4, 1⟩⟩], []⟩,
              ⟨[⟨"b1", "H1", ⟨0, 4⟩⟩, ⟨"b2", "P", ⟨0, 2⟩⟩], []⟩⟩ ∧
    ∃ ps2, (processMove friendlyFireGame Player.B "b1" "F").state.players = some ps2 ∧
      ((ps2.get Player.B).pieces =
          ([⟨"b1", "H1", ⟨0, 4⟩⟩, ⟨"b2", "P", ⟨0, 2⟩⟩] : List Piece) ∨
        ∃ pre piece post np,
          ([⟨"b1", "H1", ⟨0, 4⟩⟩, ⟨"b2", "P", ⟨0, 2⟩⟩] : List Piece) =
            pre ++ piece :: post ∧
          (∀ p ∈ pre, p.id ≠ "b1") ∧ piece.id = "b1" ∧
          (ps2.get Player.B).pieces = pre ++ { piece with position := np } :: post) ∧
      List.Sublist (ps2.get (opponentOf Player.B)).pieces
        ([⟨"a1", "P", ⟨0, 3⟩⟩, ⟨"a2", "P", ⟨4, 1⟩⟩] : List Piece) :=
  ⟨by decide,
    no_self_capture friendlyFireGame
      ⟨⟨[⟨"a1", "P", ⟨0, 3⟩⟩, ⟨"a2", "P", ⟨4, 1⟩⟩], []⟩,
       ⟨[⟨"b1", "H1", ⟨0, 4⟩⟩, ⟨"b2", "P", ⟨0, 2⟩⟩], []⟩⟩ Player.B "b1" "F" (by decide)⟩

/-- Claim C19: a call `handleCapturesAndCollisions('A', ...)` that returns `false` has
removed no piece from either roster, and every move of A that fails a gate of `processMove`
(unknown piece, no resolved position, destination outside the grid, own piece on the
destination or on the path) returns `false` and leaves the board, both rosters and
`currentPlayer` unchanged. -/
theorem rejection_atomic_for_A :
    (∀ (ps ps1 : Players) (piece : Piece) (x y newX newY : Int),
      handleCapturesAndCollisions ps Player.A piece x y newX newY = some (ps1, false) →
      ps1 = ps) ∧
    (∀ (s : GameState) (ps : Players) (pieceId move : String),
      s.players = some ps → passesGates ps Player.A pieceId move = false →
      processMove s Player.A pieceId move =
        { state := s, outcome := Outcome.returned false, events := [] }) := by
  have h1 : ∀ (ps ps1 : Players) (piece : Piece) (x y newX newY : Int),
      handleCapturesAndCollisions ps Player.A piece x y newX newY = some (ps1, false) →
      ps1 = ps := by
    intro ps ps1 piece x y newX newY hc
    rw [handleCaptures_A] at hc
    split at hc
    · exact absurd hc (by simp)
    · split_ifs at hc
      · simp only [Option.some.injEq, Prod.mk.injEq, and_true] at hc
        exact hc.symm
      · simp at hc
  refine ⟨h1, fun s ps pieceId move hps hg => ?_⟩
  rcases processMove_of_not_gates s ps Player.A pieceId move hps hg with h2 | h2
  · exact h2
  · obtain ⟨piece, np, ps1, _, _, hc, h3⟩ := h2
    rw [h3, h1 ps ps1 piece _ _ _ _ hc, ← hps]

/-- An instance of `rejection_atomic_for_A`: in `ownPieceAheadGame` A's Hero a1 going
forward would land on A's own pawn a2, past B's pawn b1, and nothing is removed. -/
theorem rejection_atomic_for_A_witness :
    ownPieceAheadGame.players =
      some ⟨⟨[⟨"a1", "H1", ⟨0, 0⟩⟩, ⟨"a2", "P", ⟨0, 2⟩⟩], []⟩,
            ⟨[⟨"b1", "P", ⟨0, 1⟩⟩], []⟩⟩ ∧
    handleCapturesAndCollisions
        ⟨⟨[⟨"a1", "H1", ⟨0, 0⟩⟩, ⟨"a2", "P", ⟨0, 2⟩⟩], []⟩, ⟨[⟨"b1", "P", ⟨0, 1⟩⟩], []⟩⟩
        Player.A ⟨"a1", "H1", ⟨0, 0⟩⟩ 0 0 0 2 =
      some (⟨⟨[⟨"a1", "H1", ⟨0, 0⟩⟩, ⟨"a2", "P", ⟨0, 2⟩⟩], []⟩,
             ⟨[⟨"b1", "P", ⟨0, 1⟩⟩], []⟩⟩, false) ∧
    passesGates
        ⟨⟨[⟨"a1", "H1", ⟨0, 0⟩⟩, ⟨"a2", "P", ⟨0, 2⟩⟩], []⟩, ⟨[⟨"b1", "P", ⟨0, 1⟩⟩], []⟩⟩
        Player.A "a1" "F" = false ∧
    processMove ownPieceAheadGame Player.A "a1" "F" =
      { state := ownPieceAheadGame, outcome := Outcome.returned false, events := [] } :=
  ⟨by decide, by decide, by decide,
    rejection_atomic_for_A.2 ownPieceAheadGame
      ⟨⟨[⟨"a1", "H1", ⟨0, 0⟩⟩, ⟨"a2", "P", ⟨0, 2⟩⟩], []⟩, ⟨[⟨"b1", "P", ⟨0, 1⟩⟩], []⟩⟩
      "a1" "F" (by decide) (by decide)⟩

/-- Claim C20: for every destination the resolver produces from a position in the range
where the source's arithmetic is exact, `calculatePath` returns: the empty list when the
piece is a Pawn, and the single midpoint cell ((x + newX) / 2, (y + newY) / 2) when it is a
Hero1 or a Hero2; and it returns whenever origin and destination are in that range, the
displacement is along one axis or exactly diagonal, and it is at most `2^32` on each axis, so
that the path fits an array. -/
theorem calculatePath_terminates :
    (∀ (player : Player) (piece : Piece) (move : String) (np : Position),
      ExactPosition piece.position →
      resolveMove player piece move = some np →
      (piece.type = "P" →
        calculatePath piece.position.x piece.position.y np.x np.y = some []) ∧
      ((piece.type = "H1" ∨ piece.type = "H2") →
        calculatePath piece.position.x piece.position.y np.x np.y =
          some [⟨(piece.position.x + np.x) / 2, (piece.position.y + np.y) / 2⟩])) ∧
    (∀ x y newX newY : Int,
      ExactPosition ⟨x, y⟩ → ExactPosition ⟨newX, newY⟩ →
      (newX - x).natAbs ≤ 4294967296 → (newY - y).natAbs ≤ 4294967296 →
      (newX = x ∨ newY = y ∨ (newX - x).natAbs = (newY - y).natAbs) →
      ∃ path, calculatePath x y newX newY = some path) := by
  constructor
  · intro player piece move np _ hr
    have hd : (piece.type = "P" →
          oneAxisBy 1 (np.x - piece.position.x) (np.y - piece.position.y)) ∧
        (piece.type = "H1" →
          oneAxisBy 2 (np.x - piece.position.x) (np.y - piece.position.y)) ∧
        (piece.type = "H2" → (np.x - piece.position.x).natAbs = 2 ∧
          (np.y - piece.position.y).natAbs = 2) := by
      cases player
      · exact movePlayerAPiece_displacement piece move np hr
      · exact movePlayerBPiece_displacement piece move np hr
    constructor
    · intro ht
      rw [calculatePath_delta, calculatePath_of_oneAxisBy_one _ _ (hd.1 ht)]
      rfl
    · intro ht
      have hh : oneAxisBy 2 (np.x - piece.position.x) (np.y - piece.position.y) ∨
          ((np.x - piece.position.x).natAbs = 2 ∧ (np.y - piece.position.y).natAbs = 2) := by
        rcases ht with ht | ht
        · exact Or.inl (hd.2.1 ht)
        · exact Or.inr (hd.2.2 ht)
      rw [calculatePath_delta, calculatePath_of_hero _ _ hh]
      simp only [Option.map_some', List.map_cons, List.map_nil, shiftBy, Option.some.injEq,
        List.cons.injEq, Position.mk.injEq, and_true]
      unfold oneAxisBy at hh
      constructor <;> omega
  · intro x y newX newY _ _ _ _ h
    have h2 : newX - x = 0 ∨ newY - y = 0 ∨ (newX - x).natAbs = (newY - y).natAbs := by
      rcases h with h | h | h
      · exact Or.inl (by omega)
      · exact Or.inr (Or.inl (by omega))
      · exact Or.inr (Or.inr h)
    obtain ⟨p, hp⟩ := calculatePath_origin_terminates _ _ h2
    rw [calculatePath_delta, hp]
    exact ⟨_, rfl⟩

/-- An instance of `calculatePath_terminates`: A's Hero1 at (0,0) going forward crosses
(0,1), and the path from (1,1) to (4,4) is computed. -/
theorem calculatePath_terminates_witness :
    ExactPosition ⟨0, 0⟩ ∧ ExactPosition ⟨1, 1⟩ ∧ ExactPosition ⟨4, 4⟩ ∧
    resolveMove Player.A ⟨"a1", "H1", ⟨0, 0⟩⟩ "F" = some ⟨0, 2⟩ ∧
    calculatePath 0 0 0 2 = some [⟨(0 + 0) / 2, (0 + 2) / 2⟩] ∧
    ∃ path, calculatePath 1 1 4 4 = some path :=
  ⟨by decide, by decide, by decide, by decide,
    (calculatePath_terminates.1 Player.A ⟨"a1", "H1", ⟨0, 0⟩⟩ "F" ⟨0, 2⟩ (by decide)
      (by decide)).2 (Or.inl rfl),
    calculatePath_terminates.2 1 1 4 4 (by decide) (by decide) (by decide) (by decide)
      (Or.inr (Or.inr (by decide)))⟩

end Chess
